import Mathlib

/-!
windigo: dynamic invocation, release tracking and the UTF-16 decode buffer

A shallow embedding of `win/ole/oleaut/IDispatch.go`, `win/ole/oleaut/funcs.go`,
`win/ole/shell/funcs.go`, `win/wstr/BufDecoder.go`, `win/kernel_hglobal.go` and
`internal/utl/bitops.go`.

Conventions.
* A Go pointer receiver or pointer argument that the function mutates is passed in and
  returned explicitly (state passing).
* A Go result pair `(*T, error)` is kept as a pair of options, `none` standing for `nil`,
  so that "nil object together with nil error" remains expressible.
* Every foreign call (`syscall.SyscallN`) is a parameter of the model: a function from
  the arguments the Go code passes to what the callee hands back (the `uintptr` return
  value and whatever it writes through the output pointers).
* `uintptr` and `uint` are 64 bit wide (windows/amd64); `co.HRESULT` is 32 bit wide.
* A run-time panic is the result `none`.
* Calls whose order or number matters are appended to a trace of `Event`s.
-/

namespace Windigo

/-! ## Scalar types and constants of package `co` -/

/-- The type `co.HRESULT`, a 32-bit status code. -/
abbrev HRESULT := Nat

/-- The type `oleaut.MEMBERID` (a DISPID), a signed 32-bit member identifier. -/
abbrev MEMBERID := Int

/-- The type `co.DISPATCH`, the dispatch kind passed to `Invoke`. -/
abbrev DISPATCH := Nat

/-- The type `win.LCID`. -/
abbrev LCID := Nat

/-- The conversion `co.HRESULT(ret)` of a `uintptr`: truncation to 32 bits. -/
def toHRESULT (ret : Nat) : HRESULT := ret % 2 ^ 32

/-- Modelled from the spec: the constant `co.HRESULT_S_OK` (the success status); package
`co` is not among the sources. -/
def HRESULT_S_OK : HRESULT := 0

/-- Modelled from the spec: the constant `co.HRESULT_DISP_E_EXCEPTION` (the distinguished
"exception raised" status); package `co` is not among the sources. -/
def HRESULT_DISP_E_EXCEPTION : HRESULT := 0x80020009

/-- Modelled from the spec: the constant `co.DISPATCH_METHOD` (dispatch kind call-method). -/
def DISPATCH_METHOD : DISPATCH := 1

/-- Modelled from the spec: the constant `co.DISPATCH_PROPERTYGET` (dispatch kind
get-property). -/
def DISPATCH_PROPERTYGET : DISPATCH := 2

/-- Modelled from the spec: the constant `co.DISPATCH_PROPERTYPUT` (dispatch kind
put-property). -/
def DISPATCH_PROPERTYPUT : DISPATCH := 4

/-- Modelled from the spec: the constant `co.DISPID_PROPERTYPUT`, the well-known "put"
parameter identifier. -/
def DISPID_PROPERTYPUT : MEMBERID := -3

/-- Modelled from the spec: the constant `win.LCID_USER_DEFAULT`. -/
def LCID_USER_DEFAULT : LCID := 0x0400

/-! ## Values, VARIANT, resources and the Releaser -/

/-- Modelled from the spec: the closed tagged union `DynamicValue` (section 3), which is
what a caller may pass as an `interface{}` parameter and what a result VARIANT holds.
Numbers carry their bit width; floating point and date payloads are kept as raw bits. -/
inductive Value where
  | empty
  | null
  | bool (b : Bool)
  | int (bits : Nat) (v : Int)
  | uint (bits : Nat) (v : Nat)
  | float (bits : Nat) (raw : Nat)
  | date (raw : Nat)
  | text (s : String)
  | object (ppvt : Nat)
  | error (code : Nat)
  deriving DecidableEq, Repr

/-- The struct `VARIANT`. `id` is the address of the allocation made by the constructor;
a byte copy (`*NewVariant(..)`) shares it, being a non-owning copy of the same payload. -/
structure VARIANT where
  id : Nat
  val : Value
  deriving DecidableEq, Repr

/-- A COM object created from a queried method-table pointer (`utl.ComCreateObj`,
`vt.NewObj`, `pObj.Set`): the Go interface type and the pointer. -/
structure ComObj where
  iface : String
  ppvt : Nat
  deriving DecidableEq, Repr

/-- What an `ole.Releaser` can hold: a VARIANT (by address) or a COM object. -/
inductive Resource where
  | variant (id : Nat)
  | com (o : ComObj)
  deriving DecidableEq, Repr

/-- The serialized `*EXCEPINFO` error value, with the fields the spec gives a
`RemoteException`. -/
structure EXCEPINFO where
  code : Nat
  source : String
  description : String
  helpLink : String
  deriving DecidableEq, Repr

/-- The raw `_EXCEPINFO` output slot the callee writes into. -/
structure RawEXCEPINFO where
  code : Nat
  source : String
  description : String
  helpLink : String
  deriving DecidableEq, Repr

/-- Modelled from the spec: `_EXCEPINFO.Serialize`, which is not among the sources. The
slot is "serialized into a host-native error value": each field is copied. -/
def RawEXCEPINFO.Serialize (e : RawEXCEPINFO) : EXCEPINFO :=
  { code := e.code, source := e.source, description := e.description, helpLink := e.helpLink }

/-- A Go `error` value as produced by the functions embedded here. -/
inductive Error where
  | hresult (hr : HRESULT)
  | excepInfo (e : EXCEPINFO)
  | errorf (msg : String)
  deriving DecidableEq, Repr

/-- The struct `DISPPARAMS`: the argument block and the named-argument identifiers. The
zero value holds neither. -/
structure DISPPARAMS where
  args : List VARIANT := []
  namedArgs : List MEMBERID := []
  deriving DecidableEq, Repr

/-- A call recorded in the trace. -/
inductive Event where
  | getIDsOfNames (lcid : LCID) (member : String) (parameters : List String)
  | newVariant (v : VARIANT)
  | newVariantEmpty (id : Nat)
  | setArgs (arr : List VARIANT)
  | setNamedArgs (ids : List MEMBERID)
  | invoke (dispIdMember : MEMBERID) (lcid : LCID) (flags : DISPATCH) (dp : DISPPARAMS)
  | excepFree
  | release (r : Resource)
  deriving DecidableEq, Repr

/-- The part of the process state the invocation engine touches: the trace of calls made so
far and the next free VARIANT address. -/
structure World where
  log : List Event := []
  nextId : Nat := 0
  deriving DecidableEq, Repr

/-- Append one event to the trace. -/
def World.emit (w : World) (e : Event) : World :=
  { w with log := w.log ++ [e] }

/-- Modelled from the spec: `ole.Releaser` (the `ReleaseTracker` of section 4.2), which is
not among the sources: an ordered sequence of tracked resources. -/
structure Releaser where
  objs : List Resource := []
  deriving DecidableEq, Repr

/-- Modelled from the spec: `ole.NewReleaser`, an empty tracker. -/
def NewReleaser : Releaser := { objs := [] }

/-- Modelled from the spec: `Releaser.Add`, which "appends to the tracked sequence; no
failure mode". -/
def Releaser.Add (r : Releaser) (x : Resource) : Releaser :=
  { objs := r.objs ++ [x] }

/-- Modelled from the spec: `Releaser.Release`, which "releases every tracked reference in
strict reverse-of-addition order, then empties the sequence". Each foreign release is
recorded in the trace. -/
def Releaser.Release (r : Releaser) (w : World) : Releaser × World :=
  ({ objs := [] }, { w with log := w.log ++ r.objs.reverse.map Event.release })

/-- Modelled from the spec: `NewVariantEmpty(releaser)`, which is not among the sources:
allocates an empty VARIANT and registers it with the given tracker. -/
def NewVariantEmpty (releaser : Releaser) (w : World) : VARIANT × Releaser × World :=
  let v : VARIANT := { id := w.nextId, val := Value.empty }
  (v, releaser.Add (Resource.variant v.id),
    { log := w.log ++ [Event.newVariantEmpty v.id], nextId := w.nextId + 1 })

/-- Modelled from the spec: `NewVariant(releaser, value)`, which is not among the sources:
the constructor for the host-native value, whose VARIANT is registered with the given
tracker. -/
def NewVariant (releaser : Releaser) (w : World) (value : Value) : VARIANT × Releaser × World :=
  let v : VARIANT := { id := w.nextId, val := value }
  (v, releaser.Add (Resource.variant v.id),
    { log := w.log ++ [Event.newVariant v], nextId := w.nextId + 1 })

/-- Modelled from the spec: `DISPPARAMS.SetArgs`, which is not among the sources: stores the
marshalled argument block. -/
def DISPPARAMS.SetArgs (dp : DISPPARAMS) (w : World) (v : List VARIANT) : DISPPARAMS × World :=
  ({ dp with args := v }, w.emit (Event.setArgs v))

/-- Modelled from the spec: `DISPPARAMS.SetNamedArgs`, which is not among the sources: tags
the block with the given named-argument identifiers. -/
def DISPPARAMS.SetNamedArgs (dp : DISPPARAMS) (w : World) (ids : List MEMBERID) :
    DISPPARAMS × World :=
  ({ dp with namedArgs := ids }, w.emit (Event.setNamedArgs ids))

/-- Modelled from the spec: `VARIANT.IDispatch(releaser)`, which is not among the sources:
"attempts to reinterpret the result as a new remote-object reference", and registers the
new reference with the tracker. The pair is Go's `(*IDispatch, bool)`. -/
def VARIANT.IDispatch (v : VARIANT) (releaser : Releaser) : (Option ComObj × Bool) × Releaser :=
  match v.val with
  | Value.object p =>
      let o : ComObj := { iface := "IDispatch", ppvt := p }
      ((some o, true), releaser.Add (Resource.com o))
  | _ => ((none, false), releaser)

/-! ## The remote object -/

/-- What the callee of the foreign `Invoke` hands back: the `uintptr` return value, the
value written into the result VARIANT and the content of the exception slot. -/
structure InvokeOut where
  ret : Nat
  result : Value
  excep : RawEXCEPINFO
  deriving DecidableEq, Repr

/-- The method table of a remote `IDispatch` object, as far as it is called here.
`getIDsOfNames member parameters` gives the return value and the identifier written at
each index of the output array; `getTypeInfo iTInfo lcid` gives the return value and the
queried pointer. -/
structure Remote where
  getIDsOfNames : LCID → String → List String → Nat × (Nat → MEMBERID)
  getTypeInfo : Nat → LCID → Nat × Nat
  invoke : MEMBERID → LCID → DISPATCH → DISPPARAMS → InvokeOut

/-- The outcome of a call: Go's result pair, the caller's Releaser and the world after. -/
structure Ret (α : Type) where
  val : Option α
  err : Option Error
  releaser : Releaser
  world : World

/-! ## `IDispatch.go` -/

/-- The method `IDispatch.GetIDsOfNames`: the output array has `1 + len(parameters)` slots,
which the callee fills; it is returned on `S_OK`, and the status is the error otherwise. -/
def IDispatch.GetIDsOfNames (me : Remote) (w : World) (lcid : LCID) (member : String)
    (parameters : List String) : (Option (List MEMBERID) × Option Error) × World :=
  let nParams := 1 + parameters.length
  let w := w.emit (Event.getIDsOfNames lcid member parameters)
  let out := me.getIDsOfNames lcid member parameters
  let memberIds := (List.range nParams).map out.2
  let hr := toHRESULT out.1
  if hr = HRESULT_S_OK then ((some memberIds, none), w)
  else ((none, some (Error.hresult hr)), w)

/-- The method `IDispatch.Invoke`. The result VARIANT is created (and registered with the
caller's Releaser) before the foreign call; the deferred `remoteErr.Free()` runs after the
returned values have been evaluated. -/
def IDispatch.Invoke (me : Remote) (releaser : Releaser) (w : World) (dispIdMember : MEMBERID)
    (lcid : LCID) (flags : DISPATCH) (dispParams : DISPPARAMS) : Ret VARIANT :=
  let (remoteResult, releaser, w) := NewVariantEmpty releaser w
  let w := w.emit (Event.invoke dispIdMember lcid flags dispParams)
  let out := me.invoke dispIdMember lcid flags dispParams
  let remoteResult : VARIANT := { remoteResult with val := out.result }
  let remoteErr := out.excep
  let hr := toHRESULT out.ret
  if hr = HRESULT_S_OK then
    { val := some remoteResult, err := none, releaser := releaser,
      world := w.emit Event.excepFree }
  else if hr = HRESULT_DISP_E_EXCEPTION then
    { val := none, err := some (Error.excepInfo remoteErr.Serialize), releaser := releaser,
      world := w.emit Event.excepFree }
  else
    { val := none, err := some (Error.hresult hr), releaser := releaser,
      world := w.emit Event.excepFree }

/-- The marshalling loop of `rawInvoke`:
`for i := len(params) - 1; i >= 0; i-- { arrVars = append(arrVars, *NewVariant(localRel, params[i])) }`.
The first argument is `i + 1`. -/
def marshalLoop (params : List Value) :
    Nat → Releaser → World → List VARIANT → List VARIANT × Releaser × World
  | 0, localRel, w, arrVars => (arrVars, localRel, w)
  | i + 1, localRel, w, arrVars =>
      match params.get? i with
      | some p =>
          let (v, localRel, w) := NewVariant localRel w p
          marshalLoop params i localRel w (arrVars ++ [v])
      | none => (arrVars, localRel, w)

/-- The method `IDispatch.rawInvoke`. -/
def IDispatch.rawInvoke (me : Remote) (releaser : Releaser) (w : World) (method : DISPATCH)
    (methodName : String) (params : List Value) : Ret VARIANT :=
  match IDispatch.GetIDsOfNames me w LCID_USER_DEFAULT methodName [] with
  | ((_, some err), w) => { val := none, err := some err, releaser := releaser, world := w }
  | ((memberIds, none), w) =>
      let localRel := NewReleaser
      let (arrVars, localRel, w) := marshalLoop params params.length localRel w []
      let dp : DISPPARAMS := {}
      let (dp, w) := if params.length > 0 then dp.SetArgs w arrVars else (dp, w)
      let (dp, w) :=
        if method = DISPATCH_PROPERTYPUT then dp.SetNamedArgs w [DISPID_PROPERTYPUT] else (dp, w)
      let r := IDispatch.Invoke me releaser w ((memberIds.getD []).getD 0 0)
        LCID_USER_DEFAULT method dp
      -- deferred localRel.Release()
      let (_, w) := localRel.Release r.world
      match r.err with
      | some err => { val := none, err := some err, releaser := r.releaser, world := w }
      | none => { val := r.val, err := none, releaser := r.releaser, world := w }

/-- The method `IDispatch.InvokeGet`. -/
def IDispatch.InvokeGet (me : Remote) (releaser : Releaser) (w : World) (propertyName : String)
    (params : List Value) : Ret VARIANT :=
  IDispatch.rawInvoke me releaser w DISPATCH_PROPERTYGET propertyName params

/-- The method `IDispatch.InvokeMethod`. -/
def IDispatch.InvokeMethod (me : Remote) (releaser : Releaser) (w : World) (methodName : String)
    (params : List Value) : Ret VARIANT :=
  IDispatch.rawInvoke me releaser w DISPATCH_METHOD methodName params

/-- The method `IDispatch.InvokePut`. -/
def IDispatch.InvokePut (me : Remote) (releaser : Releaser) (w : World) (propertyName : String)
    (value : Value) : Ret VARIANT :=
  IDispatch.rawInvoke me releaser w DISPATCH_PROPERTYPUT propertyName [value]

/-- Whether a trace event is a foreign `Invoke` call. -/
def Event.isInvoke : Event → Bool
  | Event.invoke _ _ _ _ => true
  | _ => false

/-- A remote object used to evaluate the model on concrete inputs: any name of seven letters (such as `Missing`) does
not resolve (`DISP_E_UNKNOWNNAME`), every other name resolves to member 7; member calls
succeed with an object result, except that a property-get of member 7 with two arguments
raises "Divide by zero" and one with three arguments fails with `DISP_E_BADPARAMCOUNT`. -/
def sampleRemote : Remote where
  getIDsOfNames := fun _ member _ =>
    (if member.length = 7 then 0x80020006 else 0, fun _ => 7)
  getTypeInfo := fun _ lcid => (if lcid = 0 then 0x80004001 else 0, 4096)
  invoke := fun _ _ flags dp =>
    if flags = DISPATCH_PROPERTYGET ∧ dp.args.length = 2 then
      { ret := 0x80020009, result := Value.empty,
        excep := { code := 11, source := "calc", description := "Divide by zero",
                   helpLink := "" } }
    else if flags = DISPATCH_PROPERTYGET ∧ dp.args.length = 3 then
      { ret := 0x8002000E, result := Value.empty,
        excep := { code := 0, source := "", description := "", helpLink := "" } }
    else if flags = DISPATCH_METHOD then
      { ret := 0, result := Value.int 32 5,
        excep := { code := 0, source := "", description := "", helpLink := "" } }
    else
      { ret := 0, result := Value.object 8192,
        excep := { code := 0, source := "", description := "", helpLink := "" } }

/-! ## Auxiliary definitions for the statements about the invocation engine -/

/-- The VARIANTs that successive `NewVariant` calls build from the given values when the
next free address is `base`. -/
def build (base : Nat) : List Value → List VARIANT
  | [] => []
  | p :: ps => { id := base, val := p } :: build (base + 1) ps

/-- Resolution of the member name succeeds: the foreign `GetIDsOfNames` returns `S_OK`. -/
def Resolves (me : Remote) (methodName : String) : Prop :=
  toHRESULT (me.getIDsOfNames LCID_USER_DEFAULT methodName []).1 = HRESULT_S_OK

instance (me : Remote) (methodName : String) : Decidable (Resolves me methodName) := by
  unfold Resolves; infer_instance

/-- The member identifier `memberIds[0]` that `rawInvoke` passes to `Invoke`. -/
def memberId0 (me : Remote) (methodName : String) : MEMBERID :=
  (me.getIDsOfNames LCID_USER_DEFAULT methodName []).2 0

/-- The DISPPARAMS that `rawInvoke` assembles. -/
def dispParamsOf (base : Nat) (method : DISPATCH) (params : List Value) : DISPPARAMS :=
  { args := if params.length > 0 then build base params.reverse else [],
    namedArgs := if method = DISPATCH_PROPERTYPUT then [DISPID_PROPERTYPUT] else [] }

/-- The events `rawInvoke` appends to the trace when the name resolves. -/
def rawInvokeTrace (me : Remote) (base : Nat) (method : DISPATCH) (methodName : String)
    (params : List Value) : List Event :=
  [Event.getIDsOfNames LCID_USER_DEFAULT methodName []]
    ++ (build base params.reverse).map Event.newVariant
    ++ (if params.length > 0 then [Event.setArgs (build base params.reverse)] else [])
    ++ (if method = DISPATCH_PROPERTYPUT then [Event.setNamedArgs [DISPID_PROPERTYPUT]] else [])
    ++ [Event.newVariantEmpty (base + params.length),
        Event.invoke (memberId0 me methodName) LCID_USER_DEFAULT method
          (dispParamsOf base method params),
        Event.excepFree]
    ++ ((build base params.reverse).reverse.map (fun v => Event.release (Resource.variant v.id)))

/-- The world in which `rawInvoke` calls `Invoke` once the name has resolved. -/
def worldAtInvoke (w : World) (method : DISPATCH) (methodName : String)
    (params : List Value) : World :=
  { log := w.log ++ ([Event.getIDsOfNames LCID_USER_DEFAULT methodName []]
      ++ (build w.nextId params.reverse).map Event.newVariant
      ++ (if params.length > 0 then [Event.setArgs (build w.nextId params.reverse)] else [])
      ++ (if method = DISPATCH_PROPERTYPUT then [Event.setNamedArgs [DISPID_PROPERTYPUT]]
          else [])),
    nextId := w.nextId + params.length }

/-- The events a call appended to the trace of the world it started in. -/
def newEvents {α : Type} (w : World) (r : Ret α) : List Event :=
  r.world.log.drop w.log.length

/-- The marshalled block is the caller's list reversed: every array handed to
`DISPPARAMS.SetArgs` during the call has `len(params)` elements, its element at index `j`
is a VARIANT that `NewVariant` built during the call and that holds `params[n-1-j]`; and
when the name resolves and there is a parameter, such an array is handed over exactly once
and is the argument block of the DISPPARAMS passed to `Invoke`. -/
def MarshalsReversed (me : Remote) (w : World) (methodName : String) (params : List Value)
    (r : Ret VARIANT) : Prop :=
  (∀ arr, Event.setArgs arr ∈ newEvents w r →
    arr.length = params.length ∧
    arr.map VARIANT.val = params.reverse ∧
    ∀ j, j < params.length → ∃ v, arr.get? j = some v ∧ Event.newVariant v ∈ newEvents w r ∧
      params.get? (params.length - 1 - j) = some v.val) ∧
  (Resolves me methodName → 0 < params.length →
    ∃ arr, (newEvents w r).count (Event.setArgs arr) = 1 ∧
      ∃ id lcid flags dp, Event.invoke id lcid flags dp ∈ newEvents w r ∧ dp.args = arr)

/-- The call was aborted at name resolution with error `e`: it returns `(nil, e)`, the only
event it appended is the `GetIDsOfNames` call (no VARIANT was constructed, `Invoke` was not
issued), no VARIANT address was used and the caller's Releaser is as it was. -/
def AbortedAtResolution (w : World) (releaser : Releaser) (name : String) (e : Error)
    (r : Ret VARIANT) : Prop :=
  r.val = none ∧ r.err = some e ∧
  newEvents w r = [Event.getIDsOfNames LCID_USER_DEFAULT name []] ∧
  r.world.nextId = w.nextId ∧
  r.releaser = releaser

/-! ## The object-returning variants of `IDispatch.go` -/

/-- The method `IDispatch.InvokeGetIDispatch`. The result is `none` where the Go code would
dereference a nil VARIANT (a nil result together with a nil error from `InvokeGet`). -/
def IDispatch.InvokeGetIDispatch (me : Remote) (releaser : Releaser) (w : World)
    (propertyName : String) (params : List Value) : Option (Ret ComObj) :=
  let r := IDispatch.InvokeGet me releaser w propertyName params
  match r.err with
  | some err => some { val := none, err := some err, releaser := r.releaser, world := r.world }
  | none =>
      match r.val with
      | none => none
      | some variant =>
          match variant.IDispatch r.releaser with
          | ((idisp, true), releaser) =>
              some { val := idisp, err := none, releaser := releaser, world := r.world }
          | ((_, false), releaser) =>
              some { val := none,
                     err := some (Error.errorf
                       ("InvokeGet \"" ++ propertyName ++ "\" didn't return an IDispatch object")),
                     releaser := releaser, world := r.world }

/-- The method `IDispatch.InvokeMethodIDispatch`. The result is `none` where the Go code
would dereference a nil VARIANT. -/
def IDispatch.InvokeMethodIDispatch (me : Remote) (releaser : Releaser) (w : World)
    (methodName : String) (params : List Value) : Option (Ret ComObj) :=
  let r := IDispatch.InvokeMethod me releaser w methodName params
  match r.err with
  | some err => some { val := none, err := some err, releaser := r.releaser, world := r.world }
  | none =>
      match r.val with
      | none => none
      | some variant =>
          match variant.IDispatch r.releaser with
          | ((idisp, true), releaser) =>
              some { val := idisp, err := none, releaser := releaser, world := r.world }
          | ((_, false), releaser) =>
              some { val := none,
                     err := some (Error.errorf
                       ("InvokeMethod \"" ++ methodName ++ "\" didn't return an IDispatch object")),
                     releaser := releaser, world := r.world }

/-- The method `IDispatch.InvokePutIDispatch`. The result is `none` where the Go code would
dereference a nil VARIANT. -/
def IDispatch.InvokePutIDispatch (me : Remote) (releaser : Releaser) (w : World)
    (propertyName : String) (value : Value) : Option (Ret ComObj) :=
  let r := IDispatch.InvokePut me releaser w propertyName value
  match r.err with
  | some err => some { val := none, err := some err, releaser := r.releaser, world := r.world }
  | none =>
      match r.val with
      | none => none
      | some variant =>
          match variant.IDispatch r.releaser with
          | ((idisp, true), releaser) =>
              some { val := idisp, err := none, releaser := releaser, world := r.world }
          | ((_, false), releaser) =>
              some { val := none,
                     err := some (Error.errorf
                       ("InvokePut \"" ++ propertyName ++ "\" didn't return an IDispatch object")),
                     releaser := releaser, world := r.world }

/-- How an object-returning variant `r` relates to the outcome `base` of the call it wraps:
it returns; an error of `base` is passed on unchanged with a nil object; a result VARIANT
that converts to an IDispatch gives that object and a nil error; one that does not gives a
nil object and the error text `<fn> "<name>" didn't return an IDispatch object`, which
contains the member name; and a nil object never comes with a nil error. -/
def ReinterpretsResult (fn name : String) (base : Ret VARIANT) (r : Option (Ret ComObj)) :
    Prop :=
  ∃ r', r = some r' ∧
    (∀ e, base.err = some e → r'.val = none ∧ r'.err = some e) ∧
    (∀ v, base.err = none → base.val = some v → (v.IDispatch base.releaser).1.2 = true →
      r'.val = (v.IDispatch base.releaser).1.1 ∧ r'.val ≠ none ∧ r'.err = none) ∧
    (∀ v, base.err = none → base.val = some v → (v.IDispatch base.releaser).1.2 = false →
      r'.val = none ∧
      r'.err = some (Error.errorf (fn ++ " \"" ++ name ++ "\" didn't return an IDispatch object")) ∧
      name.data <:+: (fn ++ " \"" ++ name ++ "\" didn't return an IDispatch object").data) ∧
    ¬ (r'.val = none ∧ r'.err = none)

/-- Whether a trace event belongs to marshalling: an argument VARIANT built by `NewVariant`,
or a call of `DISPPARAMS.SetArgs` or `DISPPARAMS.SetNamedArgs`. (`newVariantEmpty` is the
result slot that `Invoke` creates, not part of marshalling.) -/
def Event.isMarshalling : Event → Bool
  | Event.newVariant _ => true
  | Event.setArgs _ => true
  | Event.setNamedArgs _ => true
  | _ => false

/-- Whether a trace event is the foreign release of a tracked resource. -/
def Event.isRelease : Event → Bool
  | Event.release _ => true
  | _ => false

/-- A call with zero parameters skipped marshalling: no marshalling event was appended, any
DISPPARAMS passed to `Invoke` is the zero value, and when the name resolves the call
consists of name resolution followed by `Invoke` (which creates its result slot) alone. -/
def SkipsMarshalling (me : Remote) (w : World) (name : String) (method : DISPATCH)
    (r : Ret VARIANT) : Prop :=
  (∀ e ∈ newEvents w r, e.isMarshalling = false) ∧
  (∀ id lcid flags dp, Event.invoke id lcid flags dp ∈ newEvents w r → dp = {}) ∧
  (Resolves me name →
    newEvents w r = [Event.getIDsOfNames LCID_USER_DEFAULT name [],
                     Event.newVariantEmpty w.nextId,
                     Event.invoke (memberId0 me name) LCID_USER_DEFAULT method {},
                     Event.excepFree])

/-- The resource bookkeeping of a `rawInvoke` call whose name resolved, started in world `w`
with the caller's Releaser `releaser`.
* The call-local tracker, after the marshalling loop, holds exactly the argument VARIANTs.
* Every argument VARIANT built during the call is released exactly once during the call.
* The releases of the call are those of the local tracker, in reverse order of creation,
  and they are the last events of the call.
* The caller's Releaser gains exactly one entry, the result VARIANT that `Invoke` created,
  which is none of the argument VARIANTs. -/
def ReleasesArguments (w : World) (releaser : Releaser) (name : String) (params : List Value)
    (r : Ret VARIANT) : Prop :=
  (marshalLoop params params.length NewReleaser
      (w.emit (Event.getIDsOfNames LCID_USER_DEFAULT name [])) []).2.1.objs
    = (build w.nextId params.reverse).map (fun v => Resource.variant v.id) ∧
  (∀ v, Event.newVariant v ∈ newEvents w r →
    (newEvents w r).count (Event.release (Resource.variant v.id)) = 1) ∧
  (newEvents w r).filter Event.isRelease
    = (build w.nextId params.reverse).reverse.map (fun v => Event.release (Resource.variant v.id)) ∧
  (∃ before, newEvents w r = before ++ (newEvents w r).filter Event.isRelease ∧
    Event.excepFree ∈ before) ∧
  r.releaser.objs = releaser.objs ++ [Resource.variant (w.nextId + params.length)] ∧
  Event.newVariantEmpty (w.nextId + params.length) ∈ newEvents w r ∧
  (∀ v, Event.newVariant v ∈ newEvents w r → v.id ≠ w.nextId + params.length)

/-! ## Acquiring functions: `IDispatch.GetTypeInfo`, `oleaut/funcs.go`, `shell/funcs.go` -/

/-- The outcome of an acquiring function: Go's result pair `(*T, error)` and the
caller-supplied Releaser after the call. -/
structure Acquired where
  val : Option ComObj
  err : Option Error
  releaser : Releaser
  deriving DecidableEq, Repr

/-- The conversion `uintptr(int32(size))` of a `uint`: truncation to 32 bits, read as a
signed number, sign-extended to 64 bits. -/
def uintptrOfInt32 (size : Nat) : Nat :=
  if size % 2 ^ 32 < 2 ^ 31 then size % 2 ^ 32 else size % 2 ^ 32 + (2 ^ 64 - 2 ^ 32)

/-- The helper `utl.BoolToUintptr`: 1 for true, 0 for false. -/
def BoolToUintptr (b : Bool) : Nat := if b then 1 else 0

/-- The string buffer `wstr.NewBufWith[wstr.Stack20](s, wstr.EMPTY_IS_NIL)` as the callee
sees it: a nil pointer for the empty string, the text otherwise. -/
def strOrNil (s : String) : Option String := if s = "" then none else some s

/-- The method `IDispatch.GetTypeInfo`. -/
def IDispatch.GetTypeInfo (me : Remote) (releaser : Releaser) (lcid : LCID) : Acquired :=
  let (ret, ppvtQueried) := me.getTypeInfo 0 lcid
  let hr := toHRESULT ret
  if hr = HRESULT_S_OK then
    let pObj : ComObj := { iface := "ITypeInfo", ppvt := ppvtQueried }
    let releaser := releaser.Add (Resource.com pObj)
    { val := some pObj, err := none, releaser := releaser }
  else
    { val := none, err := some (Error.hresult hr), releaser := releaser }

/-- The function `OleLoadPicture`; `call` is the foreign procedure, given the stream pointer,
`uintptr(int32(size))`, the reversed flag and the interface queried. -/
def OleLoadPicture (call : Nat → Nat → Nat → String → Nat × Nat) (releaser : Releaser)
    (stream : ComObj) (size : Nat) (keepOriginalFormat : Bool) : Acquired :=
  let (ret, ppvtQueried) :=
    call stream.ppvt (uintptrOfInt32 size) (BoolToUintptr (!keepOriginalFormat)) "IPicture"
  let hr := toHRESULT ret
  if hr = HRESULT_S_OK then
    let pObj : ComObj := { iface := "IPicture", ppvt := ppvtQueried }
    let releaser := releaser.Add (Resource.com pObj)
    { val := some pObj, err := none, releaser := releaser }
  else
    { val := none, err := some (Error.hresult hr), releaser := releaser }

/-- The function `OleLoadPicturePath`; `call` is the foreign procedure, given the path, the
two zero arguments, the transparent colour and the interface queried. -/
def OleLoadPicturePath (call : Option String → Nat → Nat → Nat → String → Nat × Nat)
    (releaser : Releaser) (path : String) (transparentColor : Nat) : Acquired :=
  let path16 := strOrNil path
  let (ret, ppvtQueried) := call path16 0 0 transparentColor "IPicture"
  let hr := toHRESULT ret
  if hr = HRESULT_S_OK then
    let pObj : ComObj := { iface := "IPicture", ppvt := ppvtQueried }
    let releaser := releaser.Add (Resource.com pObj)
    { val := some pObj, err := none, releaser := releaser }
  else
    { val := none, err := some (Error.hresult hr), releaser := releaser }

/-- The generic function `SHCreateItemFromIDList[T]`; `T` names the interface type `T`, and
`call` is the foreign procedure, given the id list and the interface queried. -/
def SHCreateItemFromIDList (T : String) (call : Nat → String → Nat × Nat)
    (releaser : Releaser) (pidl : Nat) : Acquired :=
  let (ret, ppvtQueried) := call pidl T
  let hr := toHRESULT ret
  if hr = HRESULT_S_OK then
    let pObj : ComObj := { iface := T, ppvt := ppvtQueried }
    let releaser := releaser.Add (Resource.com pObj)
    { val := some pObj, err := none, releaser := releaser }
  else
    { val := none, err := some (Error.hresult hr), releaser := releaser }

/-- The generic function `SHCreateItemFromParsingName[T]`; `call` is the foreign procedure,
given the path, the zero bind context and the interface queried. -/
def SHCreateItemFromParsingName (T : String) (call : Option String → Nat → String → Nat × Nat)
    (releaser : Releaser) (folderOrFilePath : String) : Acquired :=
  let folderOrFilePath16 := strOrNil folderOrFilePath
  let (ret, ppvtQueried) := call folderOrFilePath16 0 T
  let hr := toHRESULT ret
  if hr = HRESULT_S_OK then
    let pObj : ComObj := { iface := T, ppvt := ppvtQueried }
    let releaser := releaser.Add (Resource.com pObj)
    { val := some pObj, err := none, releaser := releaser }
  else
    { val := none, err := some (Error.hresult hr), releaser := releaser }

/-- The function `SHGetDesktopFolder`; `call` is what the foreign procedure, which takes no
input, hands back. -/
def SHGetDesktopFolder (call : Nat × Nat) (releaser : Releaser) : Acquired :=
  let (ret, ppvtQueried) := call
  let hr := toHRESULT ret
  if hr = HRESULT_S_OK then
    let pObj : ComObj := { iface := "IShellFolder", ppvt := ppvtQueried }
    let releaser := releaser.Add (Resource.com pObj)
    { val := some pObj, err := none, releaser := releaser }
  else
    { val := none, err := some (Error.hresult hr), releaser := releaser }

/-- The contract of an acquiring function whose foreign call returned `out` (return value
and queried pointer), for the caller-supplied `releaser`: on `S_OK` the new object is
returned with a nil error and the Releaser has it appended, once, to what it held; on any
other status the function returns `(nil, status)` and the Releaser is unchanged. -/
def AcquiresTracked (iface : String) (out : Nat × Nat) (releaser : Releaser) (r : Acquired) :
    Prop :=
  (toHRESULT out.1 = HRESULT_S_OK →
    r.val = some { iface := iface, ppvt := out.2 } ∧ r.err = none ∧
    r.releaser.objs = releaser.objs ++ [Resource.com { iface := iface, ppvt := out.2 }] ∧
    r.releaser.objs.count (Resource.com { iface := iface, ppvt := out.2 })
      = releaser.objs.count (Resource.com { iface := iface, ppvt := out.2 }) + 1) ∧
  (toHRESULT out.1 ≠ HRESULT_S_OK →
    r.val = none ∧ r.err = some (Error.hresult (toHRESULT out.1)) ∧ r.releaser = releaser)

/-! ## `BufDecoder.go` -/

/-- Modelled from the spec: the process-wide scratch buffer `globalBuf` (the `ScratchBuffer`
of section 3), which is not among the sources: a wide-character array plus a binary "held"
flag. `releaseCalls` counts the calls of `release` and is not program state. -/
structure GlobalBuf where
  buf : List Nat
  held : Bool
  releaseCalls : Nat
  deriving DecidableEq, Repr

/-- Modelled from the spec: `globalBuf.tryGet`, the non-blocking `tryAcquire`: "returns true
and marks the singleton held if it was free, false otherwise". -/
def GlobalBuf.tryGet (g : GlobalBuf) : Bool × GlobalBuf :=
  if g.held then (false, g) else (true, { g with held := true })

/-- Modelled from the spec: `globalBuf.release`, which "clears the held flag". -/
def GlobalBuf.release (g : GlobalBuf) : GlobalBuf :=
  { g with held := false, releaseCalls := g.releaseCalls + 1 }

/-- The capacity test `globalBuf.canFit`, which is not among the sources and which the spec
does not describe: a parameter of the model, given the shared buffer and the `int` that
`Resize` passes. -/
abbrev CanFit := GlobalBuf → Int → Bool

/-- The conversion `int(numChars)` of a `uint`: the 64 bits read as a signed number. -/
def toInt (n : Nat) : Int :=
  if n % 2 ^ 64 < 2 ^ 63 then ((n % 2 ^ 64 : Nat) : Int) else ((n % 2 ^ 64 : Nat) : Int) - 2 ^ 64

/-- The built-in `make([]uint16, n)`: `n` zero elements, or `none` for the run-time panic
"len out of range". The panic is raised for a length that `int` cannot hold (`n ≥ 2^63`) and
for a length above `maxLen`, the largest length the runtime allocates, which is a parameter
of the model. -/
def make (maxLen n : Nat) : Option (List Nat) :=
  if n < 2 ^ 63 ∧ n ≤ maxLen then some (List.replicate n 0) else none

/-- The built-in `copy(dst, src)`: the first `min(len(dst), len(src))` elements of `dst` are
overwritten with those of `src`. The result is `dst` after the call. -/
def copy (dst src : List Nat) : List Nat :=
  src.take dst.length ++ dst.drop src.length

/-- The struct `BufDecoder`. A nil `localBuf` is the empty list. -/
structure BufDecoder where
  gotGlobal : Bool
  faceSize : Nat
  localBuf : List Nat
  deriving DecidableEq, Repr

/-- The method `BufDecoder.Resize`; `none` is the panic of `make`, raised before anything
is changed. -/
def BufDecoder.Resize (maxLen : Nat) (canFit : CanFit) (me : BufDecoder) (g : GlobalBuf)
    (numChars : Nat) : Option (BufDecoder × GlobalBuf) :=
  if me.gotGlobal then
    if !canFit g (toInt numChars) then
      match make maxLen numChars with
      | none => none
      | some localBuf =>
          let localBuf := copy localBuf g.buf
          let g := g.release
          some ({ gotGlobal := false, faceSize := numChars, localBuf := localBuf }, g)
    else
      some ({ me with faceSize := numChars }, g)
  else
    if numChars > me.localBuf.length then
      match make maxLen numChars with
      | none => none
      | some newLocalBuf =>
          let newLocalBuf := copy newLocalBuf me.localBuf
          some ({ me with localBuf := newLocalBuf, faceSize := numChars }, g)
    else
      some ({ me with faceSize := numChars }, g)

/-- The function `NewBufDecoder`; `none` is the panic of `make` inside `Resize`. -/
def NewBufDecoder (maxLen : Nat) (canFit : CanFit) (g : GlobalBuf) (numChars : Nat) :
    Option (BufDecoder × GlobalBuf) :=
  let (got, g) := g.tryGet
  let me : BufDecoder := { gotGlobal := got, faceSize := 0, localBuf := [] }
  me.Resize maxLen canFit g numChars

/-- The method `BufDecoder.Free`. -/
def BufDecoder.Free (me : BufDecoder) (g : GlobalBuf) : BufDecoder × GlobalBuf :=
  let g := if me.gotGlobal then g.release else g
  ({ me with localBuf := [] }, g)

/-- The method `BufDecoder.Len`. -/
def BufDecoder.Len (me : BufDecoder) : Nat := me.faceSize

/-- The method `BufDecoder.HotSlice`; `none` is the run-time panic of a slice expression
whose bound exceeds the capacity. -/
def BufDecoder.HotSlice (me : BufDecoder) (g : GlobalBuf) : Option (List Nat) :=
  if me.gotGlobal then
    if me.faceSize ≤ g.buf.length then some (g.buf.take me.faceSize) else none
  else
    if me.faceSize ≤ me.localBuf.length then some (me.localBuf.take me.faceSize) else none

/-- A Go `string`. -/
abbrev GoString := String

/-- The method `BufDecoder.String`; `DecodeSlice` is not among the sources and is a
parameter. -/
def BufDecoder.String (DecodeSlice : List Nat → GoString) (me : BufDecoder) (g : GlobalBuf) :
    Option GoString :=
  (me.HotSlice g).map DecodeSlice

/-- The calls `Resize(n)` for each `n` of `ns` in turn, from a decoder and shared buffer;
`none` as soon as one of them panics. -/
def resizeAll (maxLen : Nat) (canFit : CanFit) :
    List Nat → BufDecoder × GlobalBuf → Option (BufDecoder × GlobalBuf)
  | [], s => some s
  | n :: ns, s =>
      match s.1.Resize maxLen canFit s.2 n with
      | none => none
      | some s' => resizeAll maxLen canFit ns s'

/-- A decoder's whole life: `NewBufDecoder(n0)`, then `Resize(n)` for each `n` of `ns` in
turn, then `Free()`; `none` when one of the calls panics, so that the life is not of this
form. -/
def lifetime (maxLen : Nat) (canFit : CanFit) (g : GlobalBuf) (n0 : Nat) (ns : List Nat) :
    Option (BufDecoder × GlobalBuf) :=
  match NewBufDecoder maxLen canFit g n0 with
  | none => none
  | some s =>
      match resizeAll maxLen canFit ns s with
      | none => none
      | some s' => some (s'.1.Free s'.2)

/-- An operation on a decoder. -/
inductive Op where
  | len
  | hotSlice
  | string
  | resize (numChars : Nat)
  | free
  deriving DecidableEq, Repr

/-- What an operation gives back. -/
inductive OpResult where
  | len (n : Nat)
  | hotSlice (s : List Nat)
  | string (s : GoString)
  | done
  deriving DecidableEq, Repr

/-- Apply one operation: its result, the decoder and the shared buffer after it; `none` when
the operation panics. -/
def BufDecoder.apply (maxLen : Nat) (canFit : CanFit) (DecodeSlice : List Nat → GoString)
    (me : BufDecoder) (g : GlobalBuf) : Op → Option (OpResult × BufDecoder × GlobalBuf)
  | Op.len => some (OpResult.len me.Len, me, g)
  | Op.hotSlice => (me.HotSlice g).map (fun s => (OpResult.hotSlice s, me, g))
  | Op.string => (me.String DecodeSlice g).map (fun s => (OpResult.string s, me, g))
  | Op.resize n => (me.Resize maxLen canFit g n).map (fun r => (OpResult.done, r.1, r.2))
  | Op.free => some (OpResult.done, me.Free g)

/-- Apply a sequence of operations up to the first panic. The list holds, for each
operation, its result together with the decoder as it is after the operation, and `none`
for the operation that panicked; the second component is the shared buffer at the end. -/
def runOps (maxLen : Nat) (canFit : CanFit) (DecodeSlice : List Nat → GoString) :
    List Op → BufDecoder → GlobalBuf → List (Option (OpResult × BufDecoder)) × GlobalBuf
  | [], _, g => ([], g)
  | op :: ops, me, g =>
      match me.apply maxLen canFit DecodeSlice g op with
      | none => ([none], g)
      | some (res, me', g') =>
          let rest := runOps maxLen canFit DecodeSlice ops me' g'
          (some (res, me') :: rest.1, rest.2)

/-- The storage backing a decoder: the shared array while it holds the shared buffer, its
private buffer otherwise. -/
def BufDecoder.storage (me : BufDecoder) (g : GlobalBuf) : List Nat :=
  if me.gotGlobal then g.buf else me.localBuf

/-- The capacity test answers true only when the shared array has room for `numChars`
elements, `numChars` being a `uint`. -/
def CanFitSound (canFit : CanFit) : Prop :=
  ∀ (g : GlobalBuf) (n : Nat), n < 2 ^ 64 → canFit g (toInt n) = true → n ≤ g.buf.length

/-- The capacity test answers true whenever the shared array has room for `numChars`
elements, `numChars` being a size that `int` holds. -/
def CanFitComplete (canFit : CanFit) : Prop :=
  ∀ (g : GlobalBuf) (n : Nat), n < 2 ^ 63 → n ≤ g.buf.length → canFit g (toInt n) = true

/-- A capacity test used to evaluate the model on concrete inputs: true exactly for a
non-negative size that the shared array has room for. -/
def roomFor : CanFit := fun g n => decide (0 ≤ n ∧ n ≤ (g.buf.length : Int))

/-- A shared buffer that is currently held by someone else, used to evaluate the model on
concrete inputs. -/
def heldBuf (content : List Nat) : GlobalBuf :=
  { buf := content, held := true, releaseCalls := 0 }

/-- A shared buffer that nobody holds, used to evaluate the model on concrete inputs. -/
def freeBuf (content : List Nat) : GlobalBuf :=
  { buf := content, held := false, releaseCalls := 0 }

/-! ## `kernel_hglobal.go` -/

/-- The procedure identifiers `dll.PROC_*` that `kernel_hglobal.go` passes to `dll.Kernel`;
package `dll` is not among the sources, so each identifier is kept as a name. -/
inductive KernelProc where
  | PROC_GlobalAlloc
  | PROC_GlobalFlags
  | PROC_GlobalFree
  | PROC_GlobalLock
  | PROC_GlobalReAlloc
  | PROC_GlobalSize
  | PROC_GlobalUnlock
  deriving DecidableEq, Repr

/-- The type `co.ERROR`, a 32-bit system error code. -/
abbrev ERROR := Nat

/-- The conversion `co.ERROR(err)` of a `syscall.Errno`: truncation to 32 bits. -/
def toERROR (err : Nat) : ERROR := err % 2 ^ 32

/-- The conversion `co.GMEM(ret)` of a `uintptr`: truncation to 32 bits. -/
def toGMEM (ret : Nat) : Nat := ret % 2 ^ 32

/-- The outcome of a kernel32 wrapper: the value returned, Go's `error` (`none` for nil),
and the system calls it made, in order, each with its arguments. -/
structure SysRet (α : Type) where
  val : α
  err : Option ERROR
  calls : List (KernelProc × List Nat)
  deriving DecidableEq, Repr

/-- The method `HGLOBAL.GlobalFlags`. `syscall proc args` is what the system hands back for
`syscall.SyscallN(dll.Kernel(proc), args...)`: the return value and the error number.
`GMEM_INVALID_HANDLE` is the constant `utl.GMEM_INVALID_HANDLE`, which is not among the
sources. -/
def HGLOBAL.GlobalFlags (GMEM_INVALID_HANDLE : Nat) (syscall : KernelProc → List Nat → Nat × Nat)
    (hGlobal : Nat) : SysRet Nat :=
  let (ret, err) := syscall KernelProc.PROC_GlobalFree [hGlobal]
  let calls := [(KernelProc.PROC_GlobalFree, [hGlobal])]
  if ret = GMEM_INVALID_HANDLE then
    { val := toGMEM 0, err := some (toERROR err), calls := calls }
  else
    { val := toGMEM ret, err := none, calls := calls }

/-- The method `HGLOBAL.GlobalFree`. -/
def HGLOBAL.GlobalFree (syscall : KernelProc → List Nat → Nat × Nat) (hGlobal : Nat) :
    SysRet Unit :=
  if hGlobal = 0 then
    { val := (), err := none, calls := [] }
  else
    let (ret, err) := syscall KernelProc.PROC_GlobalFree [hGlobal]
    let calls := [(KernelProc.PROC_GlobalFree, [hGlobal])]
    if ret ≠ 0 then
      { val := (), err := some (toERROR err), calls := calls }
    else
      { val := (), err := none, calls := calls }

/-- A system used to evaluate the wrappers on concrete inputs: `GlobalFree` succeeds
(returns 0) on the handle 4096 and fails with error 6 on any other handle; `GlobalFlags`
reports the flags 2 for every handle. -/
def sampleSyscall : KernelProc → List Nat → Nat × Nat
  | KernelProc.PROC_GlobalFree, [h] => if h = 4096 then (0, 0) else (h, 6)
  | KernelProc.PROC_GlobalFlags, _ => (2, 0)
  | _, _ => (0, 0)

/-! ## `bitops.go`

A `uint8`, `uint16`, `uint32` or `uint64` is a natural number below `2^8`, `2^16`, `2^32` or
`2^64`; a widening conversion keeps the number, a narrowing conversion and a left shift
reduce modulo the width of the result. -/

/-- The function `utl.Make16`. -/
def Make16 (lo hi : Nat) : Nat := (lo &&& 0xff) ||| (((hi &&& 0xff) <<< 8) % 2 ^ 16)

/-- The function `utl.Make32`. -/
def Make32 (lo hi : Nat) : Nat := (lo &&& 0xffff) ||| (((hi &&& 0xffff) <<< 16) % 2 ^ 32)

/-- The function `utl.Make64`. -/
def Make64 (lo hi : Nat) : Nat :=
  (lo &&& 0xffffffff) ||| (((hi &&& 0xffffffff) <<< 32) % 2 ^ 64)

/-- The function `utl.Break16`: the pair `(lo, hi)`. -/
def Break16 (val : Nat) : Nat × Nat :=
  ((val &&& 0xff) % 2 ^ 8, ((val >>> 8) &&& 0xff) % 2 ^ 8)

/-- The function `utl.Break32`: the pair `(lo, hi)`. -/
def Break32 (val : Nat) : Nat × Nat :=
  ((val &&& 0xffff) % 2 ^ 16, ((val >>> 16) &&& 0xffff) % 2 ^ 16)

/-- The function `utl.Break64`: the pair `(lo, hi)`. -/
def Break64 (val : Nat) : Nat × Nat :=
  ((val &&& 0xffffffff) % 2 ^ 32, ((val >>> 32) &&& 0xffffffff) % 2 ^ 32)

/-- The function `utl.BitIsSet`; the constant 1 takes the type `uint8` of `number`, so the
shift is reduced modulo `2^8`. -/
def BitIsSet (number bitPosition : Nat) : Bool :=
  decide ((number &&& ((1 <<< bitPosition) % 2 ^ 8)) > 0)

/-- The function `utl.BitSet`; `a &^ b` on `uint8` is `a & (b ^ 0xff)`. -/
def BitSet (number bitPosition : Nat) (doSet : Bool) : Nat :=
  if doSet then number ||| ((1 <<< bitPosition) % 2 ^ 8)
  else number &&& (((1 <<< bitPosition) % 2 ^ 8) ^^^ 0xff)

/-! # Theorems -/

/-! ## Helper lemmas for the invocation engine -/

theorem build_length (base : Nat) (l : List Value) : (build base l).length = l.length := by
  induction l generalizing base with
  | nil => rfl
  | cons p ps ih => simp [build, ih]

theorem build_map_val (base : Nat) (l : List Value) : (build base l).map VARIANT.val = l := by
  induction l generalizing base with
  | nil => rfl
  | cons p ps ih => simp [build, ih]

theorem build_append (base : Nat) (l₁ l₂ : List Value) :
    build base (l₁ ++ l₂) = build base l₁ ++ build (base + l₁.length) l₂ := by
  induction l₁ generalizing base with
  | nil => simp [build]
  | cons p ps ih =>
      have h : base + 1 + ps.length = base + (ps.length + 1) := by omega
      simp [build, ih, h]

theorem build_get? (base : Nat) (l : List Value) (j : Nat) :
    (build base l).get? j = (l.get? j).map (fun p => { id := base + j, val := p }) := by
  induction l generalizing base j with
  | nil => simp [build]
  | cons p ps ih =>
      cases j with
      | zero => simp [build]
      | succ j =>
          simp only [build, List.get?_cons_succ, ih]
          rw [show base + 1 + j = base + (j + 1) by omega]

theorem marshalLoop_eq (params : List Value) (k : Nat) (hk : k ≤ params.length)
    (localRel : Releaser) (w : World) (arrVars : List VARIANT) :
    marshalLoop params k localRel w arrVars =
      (arrVars ++ build w.nextId (params.take k).reverse,
        { objs := localRel.objs ++
            (build w.nextId (params.take k).reverse).map (fun v => Resource.variant v.id) },
        { log := w.log ++ (build w.nextId (params.take k).reverse).map Event.newVariant,
          nextId := w.nextId + k }) := by
  induction k generalizing localRel w arrVars with
  | zero => simp [marshalLoop, build]
  | succ k ih =>
      have hlt : k < params.length := by omega
      have hget : params.get? k = some (params.get ⟨k, hlt⟩) := List.get?_eq_get hlt
      have htake : (params.take (k + 1)).reverse
          = params.get ⟨k, hlt⟩ :: (params.take k).reverse := by
        rw [List.take_succ]
        have : params[k]? = some (params.get ⟨k, hlt⟩) := by simp [hlt]
        rw [this]; simp
      simp only [marshalLoop, hget, NewVariant]
      rw [ih (by omega), htake]
      simp [build, Releaser.Add, Nat.add_assoc, Nat.add_comm 1 k]

theorem Invoke_releaser (me : Remote) (releaser : Releaser) (w : World) (id : MEMBERID)
    (lcid : LCID) (flags : DISPATCH) (dp : DISPPARAMS) :
    (IDispatch.Invoke me releaser w id lcid flags dp).releaser
      = releaser.Add (Resource.variant w.nextId) := by
  unfold IDispatch.Invoke NewVariantEmpty
  simp only []
  split_ifs <;> rfl

theorem Invoke_world (me : Remote) (releaser : Releaser) (w : World) (id : MEMBERID)
    (lcid : LCID) (flags : DISPATCH) (dp : DISPPARAMS) :
    (IDispatch.Invoke me releaser w id lcid flags dp).world
      = { log := w.log ++ [Event.newVariantEmpty w.nextId, Event.invoke id lcid flags dp,
                           Event.excepFree],
          nextId := w.nextId + 1 } := by
  unfold IDispatch.Invoke NewVariantEmpty
  simp only []
  split_ifs <;> simp [World.emit]

theorem GetIDsOfNames_ok (me : Remote) (w : World) (methodName : String)
    (h : Resolves me methodName) :
    IDispatch.GetIDsOfNames me w LCID_USER_DEFAULT methodName []
      = ((some [memberId0 me methodName], none),
          w.emit (Event.getIDsOfNames LCID_USER_DEFAULT methodName [])) := by
  unfold Resolves at h
  simp [IDispatch.GetIDsOfNames, h, memberId0, List.range_succ]

theorem GetIDsOfNames_fail (me : Remote) (w : World) (methodName : String)
    (h : ¬ Resolves me methodName) :
    IDispatch.GetIDsOfNames me w LCID_USER_DEFAULT methodName []
      = ((none, some (Error.hresult
            (toHRESULT (me.getIDsOfNames LCID_USER_DEFAULT methodName []).1))),
          w.emit (Event.getIDsOfNames LCID_USER_DEFAULT methodName [])) := by
  unfold Resolves at h
  simp [IDispatch.GetIDsOfNames, h]

theorem rawInvoke_resolved (me : Remote) (releaser : Releaser) (w : World) (method : DISPATCH)
    (methodName : String) (params : List Value) (h : Resolves me methodName) :
    let r := IDispatch.Invoke me releaser (worldAtInvoke w method methodName params)
      (memberId0 me methodName) LCID_USER_DEFAULT method (dispParamsOf w.nextId method params)
    IDispatch.rawInvoke me releaser w method methodName params =
      { val := if r.err.isSome then none else r.val,
        err := r.err,
        releaser := r.releaser,
        world :=
          { log := r.world.log ++ (build w.nextId params.reverse).reverse.map
                     (fun v => Event.release (Resource.variant v.id)),
            nextId := r.world.nextId } } := by
  intro r
  have hloop := marshalLoop_eq params params.length (le_refl _) NewReleaser
    (w.emit (Event.getIDsOfNames LCID_USER_DEFAULT methodName [])) []
  simp only [List.take_length, World.emit, List.nil_append] at hloop
  unfold IDispatch.rawInvoke
  rw [GetIDsOfNames_ok me w methodName h]
  simp only [World.emit, hloop]
  by_cases hn : params.length > 0 <;> by_cases hm : method = DISPATCH_PROPERTYPUT <;>
    simp only [hn, hm, if_true, if_false, DISPPARAMS.SetArgs, DISPPARAMS.SetNamedArgs,
      World.emit, NewReleaser, Releaser.Release, Option.getD_some, List.getD_cons_zero,
      List.nil_append, List.append_nil, List.append_assoc] <;>
    (simp only [r, dispParamsOf, worldAtInvoke, hn, hm, if_true, if_false, List.append_nil,
      List.append_assoc, List.map_reverse, List.map_map, Function.comp_def]
     split <;> simp_all)

theorem rawInvoke_log (me : Remote) (releaser : Releaser) (w : World) (method : DISPATCH)
    (methodName : String) (params : List Value) (h : Resolves me methodName) :
    (IDispatch.rawInvoke me releaser w method methodName params).world.log
      = w.log ++ rawInvokeTrace me w.nextId method methodName params := by
  have hr := rawInvoke_resolved me releaser w method methodName params h
  simp only [] at hr
  rw [hr]
  simp only [Invoke_world, worldAtInvoke, rawInvokeTrace, List.append_assoc]

theorem rawInvoke_releaser (me : Remote) (releaser : Releaser) (w : World) (method : DISPATCH)
    (methodName : String) (params : List Value) (h : Resolves me methodName) :
    (IDispatch.rawInvoke me releaser w method methodName params).releaser
      = releaser.Add (Resource.variant (w.nextId + params.length)) := by
  have hr := rawInvoke_resolved me releaser w method methodName params h
  simp only [] at hr
  rw [hr]
  simp only [Invoke_releaser, worldAtInvoke]

theorem rawInvoke_unresolved (me : Remote) (releaser : Releaser) (w : World) (method : DISPATCH)
    (methodName : String) (params : List Value) (h : ¬ Resolves me methodName) :
    IDispatch.rawInvoke me releaser w method methodName params =
      { val := none,
        err := some (Error.hresult
          (toHRESULT (me.getIDsOfNames LCID_USER_DEFAULT methodName []).1)),
        releaser := releaser,
        world := w.emit (Event.getIDsOfNames LCID_USER_DEFAULT methodName []) } := by
  unfold IDispatch.rawInvoke
  rw [GetIDsOfNames_fail me w methodName h]

/-! ## Claims about marshalling -/

theorem rawInvoke_marshalsReversed (me : Remote) (releaser : Releaser) (w : World)
    (method : DISPATCH) (methodName : String) (params : List Value) :
    MarshalsReversed me w methodName params
      (IDispatch.rawInvoke me releaser w method methodName params) := by
  by_cases h : Resolves me methodName
  · have hlog : newEvents w (IDispatch.rawInvoke me releaser w method methodName params)
        = rawInvokeTrace me w.nextId method methodName params := by
      simp [newEvents, rawInvoke_log me releaser w method methodName params h]
    unfold MarshalsReversed
    rw [hlog]
    refine ⟨?_, ?_⟩
    · intro arr harr
      have harr2 : 0 < params.length ∧ arr = build w.nextId params.reverse := by
        by_cases hn : params.length > 0 <;> by_cases hm : method = DISPATCH_PROPERTYPUT <;>
          simp [rawInvokeTrace, hn, hm] at harr <;> simp_all
      obtain ⟨_, rfl⟩ := harr2
      refine ⟨by simp [build_length], by simp [build_map_val], ?_⟩
      intro j hj
      have hj2 : j < params.reverse.length := by simpa using hj
      refine ⟨{ id := w.nextId + j, val := params.reverse.get ⟨j, hj2⟩ }, ?_, ?_, ?_⟩
      · rw [build_get?, List.get?_eq_get hj2]; rfl
      · have : ({ id := w.nextId + j, val := params.reverse.get ⟨j, hj2⟩ } : VARIANT)
            ∈ build w.nextId params.reverse := by
          apply List.get?_mem (n := j)
          rw [build_get?, List.get?_eq_get hj2]; rfl
        simp only [rawInvokeTrace, List.mem_append, List.mem_map]
        exact Or.inl (Or.inl (Or.inl (Or.inl (Or.inr ⟨_, this, rfl⟩))))
      · simp only [List.get_eq_getElem, List.getElem_reverse]
        rw [List.get?_eq_get (by omega)]
        simp
    · intro _ hn
      refine ⟨build w.nextId params.reverse, ?_, memberId0 me methodName, LCID_USER_DEFAULT,
        method, dispParamsOf w.nextId method params, ?_, ?_⟩
      · have h1 : List.count (Event.setArgs (build w.nextId params.reverse))
            (List.map Event.newVariant (build w.nextId params.reverse)) = 0 :=
          List.count_eq_zero.mpr (by simp)
        have h2 : List.count (Event.setArgs (build w.nextId params.reverse))
            (List.map (fun v => Event.release (Resource.variant v.id))
              (build w.nextId params.reverse)) = 0 :=
          List.count_eq_zero.mpr (by simp)
        by_cases hm : method = DISPATCH_PROPERTYPUT <;>
          simp [rawInvokeTrace, hn, hm, List.count_cons, h1, h2]
      · simp [rawInvokeTrace]
      · simp [dispParamsOf, hn]
  · have hlog : newEvents w (IDispatch.rawInvoke me releaser w method methodName params)
        = [Event.getIDsOfNames LCID_USER_DEFAULT methodName []] := by
      simp [newEvents, rawInvoke_unresolved me releaser w method methodName params h, World.emit]
    unfold MarshalsReversed
    rw [hlog]
    exact ⟨by simp, fun hres => absurd hres h⟩

/-- C1: for every parameter list passed to `InvokeGet`, `InvokeMethod` or `InvokePut`, the
array handed to `DISPPARAMS.SetArgs` has exactly `n` elements and its element at index `j`
is the VARIANT built from `p(n-1-j)`: the marshalled block is the caller's list reversed. -/
theorem invoke_args_reversed (me : Remote) (releaser : Releaser) (w : World) (name : String)
    (params : List Value) (value : Value) :
    MarshalsReversed me w name params (IDispatch.InvokeGet me releaser w name params) ∧
    MarshalsReversed me w name params (IDispatch.InvokeMethod me releaser w name params) ∧
    MarshalsReversed me w name [value] (IDispatch.InvokePut me releaser w name value) :=
  ⟨rawInvoke_marshalsReversed me releaser w _ name params,
   rawInvoke_marshalsReversed me releaser w _ name params,
   rawInvoke_marshalsReversed me releaser w _ name [value]⟩

/-- C2: for every property name that resolves and every value, `InvokePut` issues exactly
one `Invoke`, and the DISPPARAMS it passes holds exactly one argument, the VARIANT that
`NewVariant` built from the value, and has its named-argument identifier set to
`DISPID_PROPERTYPUT`. -/
theorem invokePut_dispparams (me : Remote) (releaser : Releaser) (w : World) (name : String)
    (value : Value) (h : Resolves me name) :
    (newEvents w (IDispatch.InvokePut me releaser w name value)).filter Event.isInvoke
        = [Event.invoke (memberId0 me name) LCID_USER_DEFAULT DISPATCH_PROPERTYPUT
            { args := [{ id := w.nextId, val := value }],
              namedArgs := [DISPID_PROPERTYPUT] }] ∧
      Event.newVariant { id := w.nextId, val := value }
        ∈ newEvents w (IDispatch.InvokePut me releaser w name value) := by
  have hlog : newEvents w (IDispatch.InvokePut me releaser w name value)
      = rawInvokeTrace me w.nextId DISPATCH_PROPERTYPUT name [value] := by
    simp [newEvents, IDispatch.InvokePut,
      rawInvoke_log me releaser w DISPATCH_PROPERTYPUT name [value] h]
  rw [hlog]
  simp [rawInvokeTrace, build, dispParamsOf, Event.isInvoke, List.filter]

theorem invokePut_dispparams_witness :
    Resolves sampleRemote "Value" ∧
    (newEvents {} (IDispatch.InvokePut sampleRemote {} {} "Value" (Value.bool true))).filter
        Event.isInvoke
      = [Event.invoke 7 LCID_USER_DEFAULT DISPATCH_PROPERTYPUT
          { args := [{ id := 0, val := Value.bool true }],
            namedArgs := [DISPID_PROPERTYPUT] }] :=
  ⟨by decide, (invokePut_dispparams sampleRemote {} {} "Value" (Value.bool true)
    (by decide)).1⟩

/-! ## Claims about decoding and failure -/

/-- C3: for every status returned by the foreign `Invoke`, `IDispatch.Invoke` returns exactly
one of three outcomes: on `S_OK` the result VARIANT and a nil error; on `DISP_E_EXCEPTION` a
nil result and the serialized EXCEPINFO, whose description is the one the callee wrote into
the exception slot; on any other status a nil result and that status as the error. -/
theorem invoke_outcomes (me : Remote) (releaser : Releaser) (w : World) (id : MEMBERID)
    (lcid : LCID) (flags : DISPATCH) (dp : DISPPARAMS) :
    (toHRESULT (me.invoke id lcid flags dp).ret = HRESULT_S_OK →
      (IDispatch.Invoke me releaser w id lcid flags dp).val
          = some { id := w.nextId, val := (me.invoke id lcid flags dp).result } ∧
      (IDispatch.Invoke me releaser w id lcid flags dp).err = none) ∧
    (toHRESULT (me.invoke id lcid flags dp).ret = HRESULT_DISP_E_EXCEPTION →
      (IDispatch.Invoke me releaser w id lcid flags dp).val = none ∧
      (IDispatch.Invoke me releaser w id lcid flags dp).err
          = some (Error.excepInfo (me.invoke id lcid flags dp).excep.Serialize) ∧
      (me.invoke id lcid flags dp).excep.Serialize.description
          = (me.invoke id lcid flags dp).excep.description) ∧
    (toHRESULT (me.invoke id lcid flags dp).ret ≠ HRESULT_S_OK →
      toHRESULT (me.invoke id lcid flags dp).ret ≠ HRESULT_DISP_E_EXCEPTION →
      (IDispatch.Invoke me releaser w id lcid flags dp).val = none ∧
      (IDispatch.Invoke me releaser w id lcid flags dp).err
          = some (Error.hresult (toHRESULT (me.invoke id lcid flags dp).ret))) := by
  unfold IDispatch.Invoke NewVariantEmpty
  simp only []
  refine ⟨fun h => ?_, fun h => ?_, fun h1 h2 => ?_⟩
  · simp [h]
  · have hne : HRESULT_DISP_E_EXCEPTION ≠ HRESULT_S_OK := by decide
    simp [h, hne, RawEXCEPINFO.Serialize]
  · simp [h1, h2]

/-- C4: if name resolution fails with error `e`, then `InvokeGet`, `InvokeMethod` and
`InvokePut` each return `(nil, e)` and the call is aborted before marshalling: no VARIANT is
constructed, `Invoke` is never issued and nothing is added to the caller's Releaser. -/
theorem invoke_aborts_on_resolution_failure (me : Remote) (releaser : Releaser) (w : World)
    (name : String) (params : List Value) (value : Value) (e : Error)
    (h : (IDispatch.GetIDsOfNames me w LCID_USER_DEFAULT name []).1.2 = some e) :
    AbortedAtResolution w releaser name e (IDispatch.InvokeGet me releaser w name params) ∧
    AbortedAtResolution w releaser name e (IDispatch.InvokeMethod me releaser w name params) ∧
    AbortedAtResolution w releaser name e (IDispatch.InvokePut me releaser w name value) := by
  have hres : ¬ Resolves me name := by
    intro hr
    rw [GetIDsOfNames_ok me w name hr] at h
    simp at h
  rw [GetIDsOfNames_fail me w name hres] at h
  simp only [Option.some.injEq] at h
  subst h
  refine ⟨?_, ?_, ?_⟩ <;>
    simp [AbortedAtResolution, IDispatch.InvokeGet, IDispatch.InvokeMethod, IDispatch.InvokePut,
      rawInvoke_unresolved _ _ _ _ _ _ hres, newEvents, World.emit]

theorem invoke_aborts_on_resolution_failure_witness :
    (IDispatch.GetIDsOfNames sampleRemote {} LCID_USER_DEFAULT "Missing" []).1.2
        = some (Error.hresult 0x80020006) ∧
    AbortedAtResolution {} {} "Missing" (Error.hresult 0x80020006)
      (IDispatch.InvokeMethod sampleRemote {} {} "Missing" [Value.int 32 1, Value.text "a"]) :=
  ⟨by decide, (invoke_aborts_on_resolution_failure sampleRemote {} {} "Missing"
    [Value.int 32 1, Value.text "a"] Value.empty (Error.hresult 0x80020006) (by decide)).2.1⟩

theorem Invoke_val_or_err (me : Remote) (releaser : Releaser) (w : World) (id : MEMBERID)
    (lcid : LCID) (flags : DISPATCH) (dp : DISPPARAMS) :
    ((IDispatch.Invoke me releaser w id lcid flags dp).err = none →
      (IDispatch.Invoke me releaser w id lcid flags dp).val ≠ none) := by
  unfold IDispatch.Invoke NewVariantEmpty
  simp only []
  split_ifs <;> simp

theorem rawInvoke_val_or_err (me : Remote) (releaser : Releaser) (w : World) (method : DISPATCH)
    (methodName : String) (params : List Value) :
    (IDispatch.rawInvoke me releaser w method methodName params).err = none →
      (IDispatch.rawInvoke me releaser w method methodName params).val ≠ none := by
  by_cases h : Resolves me methodName
  · have hr := rawInvoke_resolved me releaser w method methodName params h
    simp only [] at hr
    rw [hr]
    intro herr
    simp only [] at herr
    simp only [herr, Option.isSome_none, Bool.false_eq_true, if_false]
    exact Invoke_val_or_err _ _ _ _ _ _ _ herr
  · rw [rawInvoke_unresolved me releaser w method methodName params h]
    simp

theorem reinterprets_of_shape (fn name : String) (base : Ret VARIANT)
    (hbase : base.err = none → base.val ≠ none) :
    ReinterpretsResult fn name base
      (match base.err with
       | some err =>
          some { val := none, err := some err, releaser := base.releaser, world := base.world }
       | none =>
          match base.val with
          | none => none
          | some variant =>
              match variant.IDispatch base.releaser with
              | ((idisp, true), releaser) =>
                  some { val := idisp, err := none, releaser := releaser, world := base.world }
              | ((_, false), releaser) =>
                  some { val := none,
                         err := some (Error.errorf
                           (fn ++ " \"" ++ name ++ "\" didn't return an IDispatch object")),
                         releaser := releaser, world := base.world }) := by
  have hinfix : name.data <:+: (fn ++ " \"" ++ name
      ++ "\" didn't return an IDispatch object").data := by
    simp only [String.data_append]
    exact ⟨(fn ++ " \"").data, ("\" didn't return an IDispatch object").data, by simp⟩
  cases herr : base.err with
  | some e =>
      exact ⟨_, rfl, by simp [herr]⟩
  | none =>
      cases hval : base.val with
      | none => exact absurd hval (hbase herr)
      | some v =>
          cases hv : v.val <;>
            simp [ReinterpretsResult, VARIANT.IDispatch, hv, herr, hval] <;>
            simpa using hinfix

/-- C5: each of `InvokeGetIDispatch`, `InvokeMethodIDispatch` and `InvokePutIDispatch`
returns `(nil, e)` unchanged when the wrapped call fails with `e`, the object and a nil error
when the result VARIANT converts to an IDispatch, and a nil object with an error naming the
member when it does not; it never returns a nil object together with a nil error. -/
theorem invoke_idispatch_variants (me : Remote) (releaser : Releaser) (w : World)
    (name : String) (params : List Value) (value : Value) :
    ReinterpretsResult "InvokeGet" name (IDispatch.InvokeGet me releaser w name params)
      (IDispatch.InvokeGetIDispatch me releaser w name params) ∧
    ReinterpretsResult "InvokeMethod" name (IDispatch.InvokeMethod me releaser w name params)
      (IDispatch.InvokeMethodIDispatch me releaser w name params) ∧
    ReinterpretsResult "InvokePut" name (IDispatch.InvokePut me releaser w name value)
      (IDispatch.InvokePutIDispatch me releaser w name value) :=
  ⟨reinterprets_of_shape "InvokeGet" name _ (rawInvoke_val_or_err me releaser w _ name params),
   reinterprets_of_shape "InvokeMethod" name _ (rawInvoke_val_or_err me releaser w _ name params),
   reinterprets_of_shape "InvokePut" name _ (rawInvoke_val_or_err me releaser w _ name [value])⟩

/-! ## Claims about the zero-parameter call and resource tracking -/

theorem newEvents_rawInvoke (me : Remote) (releaser : Releaser) (w : World) (method : DISPATCH)
    (methodName : String) (params : List Value) (h : Resolves me methodName) :
    newEvents w (IDispatch.rawInvoke me releaser w method methodName params)
      = rawInvokeTrace me w.nextId method methodName params := by
  simp [newEvents, rawInvoke_log me releaser w method methodName params h]

theorem newEvents_rawInvoke_unresolved (me : Remote) (releaser : Releaser) (w : World)
    (method : DISPATCH) (methodName : String) (params : List Value)
    (h : ¬ Resolves me methodName) :
    newEvents w (IDispatch.rawInvoke me releaser w method methodName params)
      = [Event.getIDsOfNames LCID_USER_DEFAULT methodName []] := by
  simp [newEvents, rawInvoke_unresolved me releaser w method methodName params h, World.emit]

theorem rawInvoke_skipsMarshalling (me : Remote) (releaser : Releaser) (w : World)
    (method : DISPATCH) (name : String) (hm : method ≠ DISPATCH_PROPERTYPUT) :
    SkipsMarshalling me w name method (IDispatch.rawInvoke me releaser w method name []) := by
  unfold SkipsMarshalling
  by_cases h : Resolves me name
  · rw [newEvents_rawInvoke me releaser w method name [] h]
    simp [rawInvokeTrace, build, dispParamsOf, hm, Event.isMarshalling]
  · rw [newEvents_rawInvoke_unresolved me releaser w method name [] h]
    simp [h, Event.isMarshalling]

/-- C6 (amended): an `InvokeGet` or `InvokeMethod` call with zero parameters skips
marshalling entirely: no argument VARIANT is constructed, `SetArgs` and `SetNamedArgs` are
never called, and the DISPPARAMS passed to `Invoke` is the zero value. One VARIANT is still
constructed when the name resolves: the result VARIANT that `Invoke` itself creates. -/
theorem zero_params_skip_marshalling (me : Remote) (releaser : Releaser) (w : World)
    (name : String) :
    SkipsMarshalling me w name DISPATCH_PROPERTYGET (IDispatch.InvokeGet me releaser w name []) ∧
    SkipsMarshalling me w name DISPATCH_METHOD (IDispatch.InvokeMethod me releaser w name []) :=
  ⟨rawInvoke_skipsMarshalling me releaser w _ name (by decide),
   rawInvoke_skipsMarshalling me releaser w _ name (by decide)⟩

/-- C6 as stated fails: a zero-parameter `InvokeGet` on a name that resolves does construct
a VARIANT, the result VARIANT of `Invoke`, which takes the next free address and is
registered with the caller's Releaser. -/
theorem zero_params_call_constructs_result_variant :
    Event.newVariantEmpty 0 ∈ newEvents {} (IDispatch.InvokeGet sampleRemote {} {} "Open" []) ∧
    (IDispatch.InvokeGet sampleRemote {} {} "Open" []).world.nextId = 1 ∧
    (IDispatch.InvokeGet sampleRemote {} {} "Open" []).releaser.objs
      = [Resource.variant 0] := by
  decide

theorem build_ids (base : Nat) (l : List Value) :
    (build base l).map VARIANT.id = List.range' base l.length := by
  induction l generalizing base with
  | nil => rfl
  | cons p ps ih => simp [build, ih, List.range'_succ]

theorem count_release_build (base : Nat) (l : List Value) (v : VARIANT)
    (hv : v ∈ build base l) :
    ((build base l).reverse.map (fun v => Event.release (Resource.variant v.id))).count
      (Event.release (Resource.variant v.id)) = 1 := by
  have hinj : Function.Injective (fun i : Nat => Event.release (Resource.variant i)) := by
    intro a b hab
    simpa using hab
  have hmap : (build base l).reverse.map (fun v => Event.release (Resource.variant v.id))
      = ((build base l).map VARIANT.id).reverse.map
          (fun i : Nat => Event.release (Resource.variant i)) := by
    simp [List.map_reverse, Function.comp_def]
  rw [hmap, build_ids]
  have hmem : v.id ∈ (List.range' base l.length).reverse := by
    rw [List.mem_reverse, ← build_ids]
    exact List.mem_map_of_mem _ hv
  have hnd : (List.range' base l.length).reverse.Nodup :=
    List.nodup_reverse.mpr (List.nodup_range' _ _)
  have := List.count_map_of_injective (List.range' base l.length).reverse _ hinj v.id
  rw [this]
  exact List.count_eq_one_of_mem hnd hmem

theorem build_id_lt (base : Nat) (l : List Value) (v : VARIANT) (hv : v ∈ build base l) :
    v.id < base + l.length := by
  have : v.id ∈ List.range' base l.length := by
    rw [← build_ids]; exact List.mem_map_of_mem _ hv
  simp [List.mem_range'] at this
  omega

/-- C7: in `rawInvoke`, on every exit path after name resolution, every argument VARIANT is
registered with the call-local tracker, which is released exactly once before the call
returns; no argument VARIANT is registered with the caller's Releaser, whose only new entry
is the result VARIANT created by `Invoke`, added whether or not the foreign call succeeds. -/
theorem rawInvoke_releases_arguments (me : Remote) (releaser : Releaser) (w : World)
    (method : DISPATCH) (name : String) (params : List Value) (h : Resolves me name) :
    ReleasesArguments w releaser name params
      (IDispatch.rawInvoke me releaser w method name params) := by
  unfold ReleasesArguments
  rw [newEvents_rawInvoke me releaser w method name params h,
    rawInvoke_releaser me releaser w method name params h,
    marshalLoop_eq params params.length (le_refl _)]
  have hmemv : ∀ v, Event.newVariant v ∈ rawInvokeTrace me w.nextId method name params →
      v ∈ build w.nextId params.reverse := by
    intro v hv
    by_cases hn : params.length > 0 <;> by_cases hm : method = DISPATCH_PROPERTYPUT <;>
      simpa [rawInvokeTrace, hn, hm] using hv
  have hfilter : (rawInvokeTrace me w.nextId method name params).filter Event.isRelease
      = (build w.nextId params.reverse).reverse.map
          (fun v => Event.release (Resource.variant v.id)) := by
    have h1 : ∀ l : List VARIANT, (l.map Event.newVariant).filter Event.isRelease = [] := by
      intro l; simp [List.filter_eq_nil_iff, Event.isRelease]
    have h2 : ∀ l : List VARIANT,
        (l.map (fun v => Event.release (Resource.variant v.id))).filter Event.isRelease
          = l.map (fun v => Event.release (Resource.variant v.id)) := by
      intro l; simp [List.filter_eq_self, Event.isRelease]
    by_cases hn : params.length > 0 <;> by_cases hm : method = DISPATCH_PROPERTYPUT <;>
      simp [rawInvokeTrace, hn, hm, List.filter_append, h1, h2, Event.isRelease, List.filter]
  refine ⟨by simp [World.emit, NewReleaser], ?_, hfilter, ?_, by simp [Releaser.Add], ?_, ?_⟩
  · intro v hv
    have hvb := hmemv v hv
    have hc := count_release_build w.nextId params.reverse v hvb
    simp only [List.map_reverse, List.count_reverse] at hc
    have h1 : List.count (Event.release (Resource.variant v.id))
        (List.map Event.newVariant (build w.nextId params.reverse)) = 0 :=
      List.count_eq_zero.mpr (by simp)
    by_cases hn : params.length > 0 <;> by_cases hm : method = DISPATCH_PROPERTYPUT <;>
      simp [rawInvokeTrace, hn, hm, List.count_cons, h1, hc]
  · rw [hfilter]
    exact ⟨_, rfl, by simp⟩
  · simp [rawInvokeTrace]
  · intro v hv
    have := build_id_lt w.nextId params.reverse v (hmemv v hv)
    simp at this
    omega

theorem rawInvoke_releases_arguments_witness :
    Resolves sampleRemote "Open" ∧
    ReleasesArguments {} {} "Open" [Value.text "a", Value.int 32 2, Value.bool true]
      (IDispatch.rawInvoke sampleRemote {} {} DISPATCH_PROPERTYGET "Open"
        [Value.text "a", Value.int 32 2, Value.bool true]) :=
  ⟨by decide, rawInvoke_releases_arguments sampleRemote {} {} DISPATCH_PROPERTYGET "Open"
    [Value.text "a", Value.int 32 2, Value.bool true] (by decide)⟩

/-! ## Claim about the acquiring functions -/

theorem acquiresTracked_of_shape (iface : String) (out : Nat × Nat) (releaser : Releaser) :
    AcquiresTracked iface out releaser
      (if toHRESULT out.1 = HRESULT_S_OK then
        { val := some { iface := iface, ppvt := out.2 }, err := none,
          releaser := releaser.Add (Resource.com { iface := iface, ppvt := out.2 }) }
      else
        { val := none, err := some (Error.hresult (toHRESULT out.1)), releaser := releaser }) := by
  unfold AcquiresTracked
  by_cases h : toHRESULT out.1 = HRESULT_S_OK
  · simp [h, Releaser.Add, List.count_append]
  · simp [h]

/-- C8: for each acquiring function (`IDispatch.GetTypeInfo`, `OleLoadPicture`,
`OleLoadPicturePath`, `SHCreateItemFromIDList`, `SHCreateItemFromParsingName`,
`SHGetDesktopFolder`) and every HRESULT of the foreign call: on `S_OK` the new object is
added to the caller-supplied Releaser exactly once and returned with a nil error; otherwise
the function returns `(nil, that HRESULT)` and the Releaser is left unchanged. -/
theorem acquiring_functions_track (releaser : Releaser) (me : Remote) (lcid : LCID)
    (loadPicture : Nat → Nat → Nat → String → Nat × Nat) (stream : ComObj) (size : Nat)
    (keepOriginalFormat : Bool)
    (loadPicturePath : Option String → Nat → Nat → Nat → String → Nat × Nat) (path : String)
    (transparentColor : Nat)
    (T : String) (fromIDList : Nat → String → Nat × Nat) (pidl : Nat)
    (fromParsingName : Option String → Nat → String → Nat × Nat) (folderOrFilePath : String)
    (desktopFolder : Nat × Nat) :
    AcquiresTracked "ITypeInfo" (me.getTypeInfo 0 lcid) releaser
      (IDispatch.GetTypeInfo me releaser lcid) ∧
    AcquiresTracked "IPicture"
      (loadPicture stream.ppvt (uintptrOfInt32 size) (BoolToUintptr (!keepOriginalFormat))
        "IPicture") releaser
      (OleLoadPicture loadPicture releaser stream size keepOriginalFormat) ∧
    AcquiresTracked "IPicture" (loadPicturePath (strOrNil path) 0 0 transparentColor "IPicture")
      releaser (OleLoadPicturePath loadPicturePath releaser path transparentColor) ∧
    AcquiresTracked T (fromIDList pidl T) releaser
      (SHCreateItemFromIDList T fromIDList releaser pidl) ∧
    AcquiresTracked T (fromParsingName (strOrNil folderOrFilePath) 0 T) releaser
      (SHCreateItemFromParsingName T fromParsingName releaser folderOrFilePath) ∧
    AcquiresTracked "IShellFolder" desktopFolder releaser
      (SHGetDesktopFolder desktopFolder releaser) :=
  ⟨acquiresTracked_of_shape _ _ _, acquiresTracked_of_shape _ _ _,
   acquiresTracked_of_shape _ _ _, acquiresTracked_of_shape _ _ _,
   acquiresTracked_of_shape _ _ _, acquiresTracked_of_shape _ _ _⟩

/-! ## Claims about the decode buffer -/

theorem Resize_release_balance (maxLen : Nat) (canFit : CanFit) (me : BufDecoder)
    (g : GlobalBuf) (n : Nat) (r : BufDecoder × GlobalBuf)
    (h : me.Resize maxLen canFit g n = some r) :
    r.2.releaseCalls + (if r.1.gotGlobal then 1 else 0)
      = g.releaseCalls + (if me.gotGlobal then 1 else 0) := by
  unfold BufDecoder.Resize at h
  cases hg : me.gotGlobal
  · rw [hg] at h
    simp only [Bool.false_eq_true, if_false] at h
    by_cases hn : n > me.localBuf.length
    · rw [if_pos hn] at h
      cases hm : make maxLen n with
      | none => rw [hm] at h; exact Option.noConfusion h
      | some l =>
          rw [hm] at h
          simp only [Option.some.injEq] at h
          subst h
          simp [hg]
    · rw [if_neg hn] at h
      simp only [Option.some.injEq] at h
      subst h
      simp [hg]
  · rw [hg] at h
    simp only [if_true] at h
    cases hf : canFit g (toInt n)
    · rw [hf] at h
      simp only [Bool.not_false, if_true] at h
      cases hm : make maxLen n with
      | none => rw [hm] at h; exact Option.noConfusion h
      | some l =>
          rw [hm] at h
          simp only [Option.some.injEq] at h
          subst h
          simp [GlobalBuf.release]
    · rw [hf] at h
      simp only [Bool.not_true, Bool.false_eq_true, if_false, Option.some.injEq] at h
      subst h
      simp [hg]

theorem resizeAll_release_balance (maxLen : Nat) (canFit : CanFit) (ns : List Nat)
    (s r : BufDecoder × GlobalBuf) (h : resizeAll maxLen canFit ns s = some r) :
    r.2.releaseCalls + (if r.1.gotGlobal then 1 else 0)
      = s.2.releaseCalls + (if s.1.gotGlobal then 1 else 0) := by
  induction ns generalizing s with
  | nil =>
      simp only [resizeAll, Option.some.injEq] at h
      subst h
      rfl
  | cons n ns ih =>
      simp only [resizeAll] at h
      cases hr : s.1.Resize maxLen canFit s.2 n with
      | none => rw [hr] at h; exact Option.noConfusion h
      | some s' =>
          rw [hr] at h
          rw [ih s' h, Resize_release_balance maxLen canFit s.1 s.2 n s' hr]

theorem Free_release_balance (me : BufDecoder) (g : GlobalBuf) :
    (me.Free g).2.releaseCalls = g.releaseCalls + (if me.gotGlobal then 1 else 0) := by
  unfold BufDecoder.Free
  cases me.gotGlobal <;> simp [GlobalBuf.release]

theorem make_some (maxLen n : Nat) (h1 : n < 2 ^ 63) (h2 : n ≤ maxLen) :
    make maxLen n = some (List.replicate n 0) := by
  unfold make
  rw [if_pos ⟨h1, h2⟩]

theorem make_eq_some (maxLen n : Nat) (l : List Nat) (h : make maxLen n = some l) :
    l = List.replicate n 0 ∧ n < 2 ^ 63 ∧ n ≤ maxLen := by
  unfold make at h
  by_cases hc : n < 2 ^ 63 ∧ n ≤ maxLen
  · rw [if_pos hc] at h
    simp only [Option.some.injEq] at h
    exact ⟨h.symm, hc⟩
  · rw [if_neg hc] at h
    exact Option.noConfusion h

theorem Resize_returns (maxLen : Nat) (canFit : CanFit) (me : BufDecoder) (g : GlobalBuf)
    (n : Nat) (h1 : n < 2 ^ 63) (h2 : n ≤ maxLen) :
    ∃ r, me.Resize maxLen canFit g n = some r := by
  unfold BufDecoder.Resize
  rw [make_some maxLen n h1 h2]
  split_ifs <;> exact ⟨_, rfl⟩

theorem resizeAll_returns (maxLen : Nat) (canFit : CanFit) (ns : List Nat)
    (s : BufDecoder × GlobalBuf) (h : ∀ n ∈ ns, n < 2 ^ 63 ∧ n ≤ maxLen) :
    ∃ r, resizeAll maxLen canFit ns s = some r := by
  induction ns generalizing s with
  | nil => exact ⟨s, rfl⟩
  | cons n ns ih =>
      obtain ⟨s', hs'⟩ := Resize_returns maxLen canFit s.1 s.2 n
        (h n (List.mem_cons_self _ _)).1 (h n (List.mem_cons_self _ _)).2
      obtain ⟨r, hr⟩ := ih s' (fun m hm => h m (List.mem_cons_of_mem _ hm))
      exact ⟨r, by simp only [resizeAll, hs', hr]⟩

/-- C9: over a decoder's life `NewBufDecoder(n0)`, `Resize(n1)` ... `Resize(nk)`, `Free()`,
the shared buffer's `release` is called exactly once if `tryGet` returned true and never if
it returned false; every sequence of sizes that `make` can allocate gives such a life. In
particular a `Resize` that abandons the shared buffer releases it at that moment, and
nothing after it (further resizes, `Free`) releases it again. -/
theorem lifetime_releases_once (maxLen : Nat) (canFit : CanFit) (g : GlobalBuf) (n0 : Nat)
    (ns : List Nat) :
    (∀ r, lifetime maxLen canFit g n0 ns = some r →
      r.2.releaseCalls = g.releaseCalls + (if g.tryGet.1 then 1 else 0)) ∧
    ((∀ n ∈ n0 :: ns, n < 2 ^ 63 ∧ n ≤ maxLen) →
      ∃ r, lifetime maxLen canFit g n0 ns = some r) ∧
    (∀ (me : BufDecoder) (g' : GlobalBuf) (n : Nat) (ms : List Nat)
        (s : BufDecoder × GlobalBuf),
      me.gotGlobal = true → canFit g' (toInt n) = false →
      me.Resize maxLen canFit g' n = some s →
      s.1.gotGlobal = false ∧ s.2.releaseCalls = g'.releaseCalls + 1 ∧
      ∀ s', resizeAll maxLen canFit ms s = some s' →
        (s'.1.Free s'.2).2.releaseCalls = g'.releaseCalls + 1) := by
  refine ⟨?_, ?_, ?_⟩
  · intro r hr
    unfold lifetime at hr
    cases hnew : NewBufDecoder maxLen canFit g n0 with
    | none => rw [hnew] at hr; exact Option.noConfusion hr
    | some s =>
        rw [hnew] at hr
        simp only [] at hr
        cases hall : resizeAll maxLen canFit ns s with
        | none => rw [hall] at hr; exact Option.noConfusion hr
        | some s' =>
            rw [hall] at hr
            simp only [Option.some.injEq] at hr
            subst hr
            rw [Free_release_balance, resizeAll_release_balance maxLen canFit ns s s' hall]
            unfold NewBufDecoder at hnew
            have := Resize_release_balance maxLen canFit
              { gotGlobal := g.tryGet.1, faceSize := 0, localBuf := [] } g.tryGet.2 n0 s hnew
            rw [this]
            unfold GlobalBuf.tryGet
            cases g.held <;> simp
  · intro hall
    obtain ⟨s, hs⟩ := Resize_returns maxLen canFit
      { gotGlobal := g.tryGet.1, faceSize := 0, localBuf := [] } g.tryGet.2 n0
      (hall n0 (List.mem_cons_self _ _)).1 (hall n0 (List.mem_cons_self _ _)).2
    obtain ⟨s', hs'⟩ := resizeAll_returns maxLen canFit ns s
      (fun m hm => hall m (List.mem_cons_of_mem _ hm))
    have hnew : NewBufDecoder maxLen canFit g n0 = some s := hs
    exact ⟨s'.1.Free s'.2, by simp only [lifetime, hnew, hs']⟩
  · intro me g' n ms s hgot hfit hres
    have hbal := Resize_release_balance maxLen canFit me g' n s hres
    have h1 : s.1.gotGlobal = false := by
      unfold BufDecoder.Resize at hres
      rw [hgot, hfit] at hres
      simp only [if_true, Bool.not_false] at hres
      cases hm : make maxLen n with
      | none => rw [hm] at hres; exact Option.noConfusion hres
      | some l =>
          rw [hm] at hres
          simp only [Option.some.injEq] at hres
          subst hres
          rfl
    rw [h1, hgot] at hbal
    simp only [Bool.false_eq_true, if_false, if_true, Nat.add_zero] at hbal
    refine ⟨h1, hbal, ?_⟩
    intro s' hs'
    have := resizeAll_release_balance maxLen canFit ms s s' hs'
    rw [Free_release_balance]
    rw [h1, hbal] at this
    simpa using this

theorem lifetime_releases_once_witness :
    lifetime 1000 roomFor (freeBuf [0, 0, 0, 0]) 2 [3, 10, 1]
      = some ({ gotGlobal := false, faceSize := 1, localBuf := [] },
              { buf := [0, 0, 0, 0], held := false, releaseCalls := 1 }) ∧
    (1 : Nat) = (freeBuf [0, 0, 0, 0]).releaseCalls
      + (if (freeBuf [0, 0, 0, 0]).tryGet.1 then 1 else 0) :=
  ⟨by decide,
   (lifetime_releases_once 1000 roomFor (freeBuf [0, 0, 0, 0]) 2 [3, 10, 1]).1
     ({ gotGlobal := false, faceSize := 1, localBuf := [] },
      { buf := [0, 0, 0, 0], held := false, releaseCalls := 1 }) (by decide)⟩

theorem NewBufDecoder_fallback (maxLen : Nat) (canFit : CanFit) (g : GlobalBuf) (n : Nat)
    (h : g.tryGet.1 = false) :
    NewBufDecoder maxLen canFit g n
      = if n = 0 ∨ (n < 2 ^ 63 ∧ n ≤ maxLen)
        then some ({ gotGlobal := false, faceSize := n, localBuf := List.replicate n 0 }, g)
        else none := by
  have hheld : g.held = true := by
    cases hh : g.held
    · simp [GlobalBuf.tryGet, hh] at h
    · rfl
  unfold NewBufDecoder
  simp only [GlobalBuf.tryGet, hheld, if_true, BufDecoder.Resize, Bool.false_eq_true, if_false,
    List.length_nil]
  by_cases hn : n > 0
  · have hn0 : ¬ n = 0 := by omega
    by_cases hc : n < 2 ^ 63 ∧ n ≤ maxLen
    · have hm : make maxLen n = some (List.replicate n 0) := make_some maxLen n hc.1 hc.2
      rw [if_pos hn, hm, if_pos (Or.inr hc)]
      simp [copy]
    · have hm : make maxLen n = none := by unfold make; rw [if_neg hc]
      rw [if_pos hn, hm, if_neg (by rintro (h0 | h1); exact hn0 h0; exact hc h1)]
  · have : n = 0 := by omega
    simp [this]

theorem apply_private (maxLen : Nat) (canFit : CanFit) (DecodeSlice : List Nat → GoString)
    (me : BufDecoder) (op : Op) (g g' : GlobalBuf) (h : me.gotGlobal = false) :
    (me.apply maxLen canFit DecodeSlice g op).map (fun r => (r.1, r.2.1))
        = (me.apply maxLen canFit DecodeSlice g' op).map (fun r => (r.1, r.2.1)) ∧
    ∀ r, me.apply maxLen canFit DecodeSlice g op = some r →
      r.2.2 = g ∧ r.2.1.gotGlobal = false := by
  cases op with
  | len => simp [BufDecoder.apply, h]
  | hotSlice =>
      by_cases hf : me.faceSize ≤ me.localBuf.length <;>
        simp [BufDecoder.apply, BufDecoder.HotSlice, h, hf]
  | string =>
      by_cases hf : me.faceSize ≤ me.localBuf.length <;>
        simp [BufDecoder.apply, BufDecoder.String, BufDecoder.HotSlice, h, hf]
  | resize n =>
      by_cases hn : n > me.localBuf.length
      · cases hm : make maxLen n <;>
          simp [BufDecoder.apply, BufDecoder.Resize, h, hn, hm]
      · simp [BufDecoder.apply, BufDecoder.Resize, h, hn]
  | free => simp [BufDecoder.apply, BufDecoder.Free, h]

theorem runOps_private (maxLen : Nat) (canFit : CanFit) (DecodeSlice : List Nat → GoString)
    (ops : List Op) (me : BufDecoder) (g g' : GlobalBuf) (h : me.gotGlobal = false) :
    (runOps maxLen canFit DecodeSlice ops me g).1
        = (runOps maxLen canFit DecodeSlice ops me g').1 ∧
    (runOps maxLen canFit DecodeSlice ops me g).2 = g := by
  induction ops generalizing me with
  | nil => simp [runOps]
  | cons op ops ih =>
      obtain ⟨h1, h2⟩ := apply_private maxLen canFit DecodeSlice me op g g' h
      obtain ⟨_, h2'⟩ := apply_private maxLen canFit DecodeSlice me op g' g h
      cases ha : me.apply maxLen canFit DecodeSlice g op with
      | none =>
          rw [ha] at h1
          cases ha' : me.apply maxLen canFit DecodeSlice g' op with
          | none => simp [runOps, ha, ha']
          | some r' => rw [ha'] at h1; simp at h1
      | some r =>
          rw [ha] at h1
          cases ha' : me.apply maxLen canFit DecodeSlice g' op with
          | none => rw [ha'] at h1; simp at h1
          | some r' =>
              rw [ha'] at h1
              simp only [Option.map_some', Option.some.injEq, Prod.mk.injEq] at h1
              obtain ⟨hg, hgot⟩ := h2 r ha
              obtain ⟨hg', _⟩ := h2' r' ha'
              obtain ⟨res, d, gg⟩ := r
              obtain ⟨res', d', gg'⟩ := r'
              simp only at h1 hg hgot hg'
              obtain ⟨rfl, rfl⟩ := h1
              subst hg hg'
              have ih' := ih d hgot
              simp only [runOps, ha, ha']
              exact ⟨by rw [ih'.1], ih'.2⟩

/-- C10: when the non-blocking acquisition of the shared buffer fails, `NewBufDecoder(n)`,
once it returns, holds a private zero-filled buffer of exactly `n` elements, and it returns
for every `n` that `make` can allocate; from then on every result of `Len`, `HotSlice`,
`String` and `Resize` on that decoder (a panic included) is the same for any two contents of
the shared buffer, and no operation of that decoder, `Free` included, modifies or releases
the shared buffer. -/
theorem fallback_independent_of_shared (maxLen : Nat) (canFit : CanFit)
    (DecodeSlice : List Nat → GoString) (n : Nat) (ops : List Op) (g₁ g₂ : GlobalBuf)
    (h₁ : g₁.tryGet.1 = false) (h₂ : g₂.tryGet.1 = false) :
    (∀ d g', NewBufDecoder maxLen canFit g₁ n = some (d, g') →
      d = { gotGlobal := false, faceSize := n, localBuf := List.replicate n 0 } ∧
      d.localBuf.length = n ∧
      g' = g₁ ∧
      NewBufDecoder maxLen canFit g₂ n = some (d, g₂) ∧
      (runOps maxLen canFit DecodeSlice ops d g₁).1
          = (runOps maxLen canFit DecodeSlice ops d g₂).1 ∧
      (runOps maxLen canFit DecodeSlice ops d g₁).2 = g₁ ∧
      (runOps maxLen canFit DecodeSlice ops d g₂).2 = g₂) ∧
    (n < 2 ^ 63 → n ≤ maxLen →
      ∃ d, NewBufDecoder maxLen canFit g₁ n = some (d, g₁)) ∧
    (NewBufDecoder maxLen canFit g₁ n = none → NewBufDecoder maxLen canFit g₂ n = none) := by
  rw [NewBufDecoder_fallback maxLen canFit g₁ n h₁, NewBufDecoder_fallback maxLen canFit g₂ n h₂]
  by_cases hc : n = 0 ∨ (n < 2 ^ 63 ∧ n ≤ maxLen)
  · simp only [if_pos hc]
    refine ⟨?_, fun _ _ => ⟨_, rfl⟩, fun h => Option.noConfusion h⟩
    intro d g' hd
    simp only [Option.some.injEq, Prod.mk.injEq] at hd
    obtain ⟨rfl, rfl⟩ := hd
    refine ⟨rfl, by simp, rfl, rfl, ?_, ?_, ?_⟩
    · exact (runOps_private maxLen canFit DecodeSlice ops _ g₁ g₂ rfl).1
    · exact (runOps_private maxLen canFit DecodeSlice ops _ g₁ g₂ rfl).2
    · exact (runOps_private maxLen canFit DecodeSlice ops _ g₂ g₁ rfl).2
  · rw [if_neg hc, if_neg hc]
    exact ⟨fun d g' h => Option.noConfusion h, fun h1 h2 => absurd (Or.inr ⟨h1, h2⟩) hc,
      fun _ => rfl⟩

theorem fallback_independent_of_shared_witness :
    (heldBuf [104, 105]).tryGet.1 = false ∧ (heldBuf [7, 7, 7, 7]).tryGet.1 = false ∧
    NewBufDecoder 1000 roomFor (heldBuf [104, 105]) 2
      = some ({ gotGlobal := false, faceSize := 2, localBuf := [0, 0] }, heldBuf [104, 105]) ∧
    (runOps 1000 roomFor (fun s => String.mk (s.map Char.ofNat))
        [Op.hotSlice, Op.resize 3, Op.len, Op.string, Op.resize 2000, Op.free]
        { gotGlobal := false, faceSize := 2, localBuf := [0, 0] } (heldBuf [104, 105])).1
      = (runOps 1000 roomFor (fun s => String.mk (s.map Char.ofNat))
        [Op.hotSlice, Op.resize 3, Op.len, Op.string, Op.resize 2000, Op.free]
        { gotGlobal := false, faceSize := 2, localBuf := [0, 0] } (heldBuf [7, 7, 7, 7])).1 :=
  ⟨by decide, by decide, by decide,
   ((fallback_independent_of_shared 1000 roomFor (fun s => String.mk (s.map Char.ofNat)) 2
      [Op.hotSlice, Op.resize 3, Op.len, Op.string, Op.resize 2000, Op.free]
      (heldBuf [104, 105]) (heldBuf [7, 7, 7, 7]) (by decide) (by decide)).1
      { gotGlobal := false, faceSize := 2, localBuf := [0, 0] } (heldBuf [104, 105])
      (by decide)).2.2.2.2.1⟩

/-! ## Evaluations at concrete inputs -/

theorem invoke_args_reversed_witness :
    MarshalsReversed sampleRemote {} "Open" [Value.text "A", Value.text "B", Value.text "C"]
      (IDispatch.InvokeMethod sampleRemote {} {} "Open"
        [Value.text "A", Value.text "B", Value.text "C"]) ∧
    (IDispatch.InvokeMethod sampleRemote {} {} "Open"
        [Value.text "A", Value.text "B", Value.text "C"]).world.log.filter Event.isInvoke
      = [Event.invoke 7 LCID_USER_DEFAULT DISPATCH_METHOD
          { args := [{ id := 0, val := Value.text "C" }, { id := 1, val := Value.text "B" },
                     { id := 2, val := Value.text "A" }],
            namedArgs := [] }] :=
  ⟨(invoke_args_reversed sampleRemote {} {} "Open"
      [Value.text "A", Value.text "B", Value.text "C"] Value.empty).2.1, by decide⟩

theorem invoke_outcomes_witness :
    toHRESULT (sampleRemote.invoke 7 LCID_USER_DEFAULT DISPATCH_PROPERTYGET
        { args := [{ id := 0, val := Value.int 32 0 }, { id := 1, val := Value.int 32 1 }] }).ret
      = HRESULT_DISP_E_EXCEPTION ∧
    (IDispatch.Invoke sampleRemote {} {} 7 LCID_USER_DEFAULT DISPATCH_PROPERTYGET
        { args := [{ id := 0, val := Value.int 32 0 }, { id := 1, val := Value.int 32 1 }] }).err
      = some (Error.excepInfo { code := 11, source := "calc", description := "Divide by zero",
                                helpLink := "" }) :=
  ⟨by decide,
   ((invoke_outcomes sampleRemote {} {} 7 LCID_USER_DEFAULT DISPATCH_PROPERTYGET
      { args := [{ id := 0, val := Value.int 32 0 }, { id := 1, val := Value.int 32 1 }] }).2.1
      (by decide)).2.1⟩

/-! ## Claims about the size and content of the decode buffer -/

theorem copy_length (dst src : List Nat) : (copy dst src).length = dst.length := by
  simp only [copy, List.length_append, List.length_take, List.length_drop]
  omega

theorem copy_replicate_of_le (src : List Nat) (n : Nat) (h : src.length ≤ n) :
    copy (List.replicate n 0) src = src ++ List.replicate (n - src.length) 0 := by
  simp [copy, List.take_of_length_le h]

theorem Resize_cases (maxLen : Nat) (canFit : CanFit) (me : BufDecoder) (g : GlobalBuf)
    (n : Nat) (d : BufDecoder) (g' : GlobalBuf)
    (h : me.Resize maxLen canFit g n = some (d, g')) :
    (me.gotGlobal = true ∧ canFit g (toInt n) = true ∧
      d = { me with faceSize := n } ∧ g' = g) ∨
    (me.gotGlobal = true ∧ canFit g (toInt n) = false ∧ n < 2 ^ 63 ∧
      d = { gotGlobal := false, faceSize := n, localBuf := copy (List.replicate n 0) g.buf } ∧
      g' = g.release) ∨
    (me.gotGlobal = false ∧ n > me.localBuf.length ∧
      d = { me with localBuf := copy (List.replicate n 0) me.localBuf, faceSize := n } ∧
      g' = g) ∨
    (me.gotGlobal = false ∧ ¬ n > me.localBuf.length ∧
      d = { me with faceSize := n } ∧ g' = g) := by
  unfold BufDecoder.Resize at h
  cases hg : me.gotGlobal
  · rw [hg] at h
    simp only [Bool.false_eq_true, if_false] at h
    by_cases hn : n > me.localBuf.length
    · rw [if_pos hn] at h
      cases hm : make maxLen n with
      | none => rw [hm] at h; exact Option.noConfusion h
      | some l =>
          rw [hm] at h
          obtain ⟨rfl, _, _⟩ := make_eq_some maxLen n l hm
          simp only [Option.some.injEq, Prod.mk.injEq] at h
          exact Or.inr (Or.inr (Or.inl ⟨rfl, hn, h.1.symm, h.2.symm⟩))
    · rw [if_neg hn] at h
      simp only [Option.some.injEq, Prod.mk.injEq] at h
      exact Or.inr (Or.inr (Or.inr ⟨rfl, hn, h.1.symm, h.2.symm⟩))
  · rw [hg] at h
    simp only [if_true] at h
    cases hf : canFit g (toInt n)
    · rw [hf] at h
      simp only [Bool.not_false, if_true] at h
      cases hm : make maxLen n with
      | none => rw [hm] at h; exact Option.noConfusion h
      | some l =>
          rw [hm] at h
          obtain ⟨rfl, hlt, _⟩ := make_eq_some maxLen n l hm
          simp only [Option.some.injEq, Prod.mk.injEq] at h
          exact Or.inr (Or.inl ⟨rfl, rfl, hlt, h.1.symm, h.2.symm⟩)
    · rw [hf] at h
      simp only [Bool.not_true, Bool.false_eq_true, if_false, Option.some.injEq,
        Prod.mk.injEq] at h
      exact Or.inl ⟨rfl, rfl, h.1.symm, h.2.symm⟩

theorem toInt_of_lt (n : Nat) (h : n < 2 ^ 63) : toInt n = (n : Int) := by
  have h64 : n % 2 ^ 64 = n := Nat.mod_eq_of_lt (by omega)
  unfold toInt
  rw [h64, if_pos h]

theorem roomFor_sound : CanFitSound roomFor := by
  intro g n hn h
  simp only [roomFor, decide_eq_true_eq] at h
  have h64 : n % 2 ^ 64 = n := Nat.mod_eq_of_lt hn
  unfold toInt at h
  rw [h64] at h
  split_ifs at h <;> omega

theorem roomFor_complete : CanFitComplete roomFor := by
  intro g n hn h
  simp only [roomFor, decide_eq_true_eq, toInt_of_lt n hn]
  omega

theorem Resize_after (maxLen : Nat) (canFit : CanFit) (me : BufDecoder) (g : GlobalBuf)
    (n : Nat) (hn : n < 2 ^ 64) (hfit : CanFitSound canFit) (d : BufDecoder) (g' : GlobalBuf)
    (h : me.Resize maxLen canFit g n = some (d, g')) :
    d.Len = n ∧ (∃ s, d.HotSlice g' = some s ∧ s.length = n) ∧
    (d.gotGlobal = false → d.Len ≤ d.localBuf.length) := by
  rcases Resize_cases maxLen canFit me g n d g' h with
    ⟨hg, hf, rfl, rfl⟩ | ⟨hg, hf, _, rfl, rfl⟩ | ⟨hg, hlen, rfl, rfl⟩ | ⟨hg, hlen, rfl, rfl⟩
  · have hle := hfit g' n hn hf
    simp [BufDecoder.Len, BufDecoder.HotSlice, hg, hle]
  · simp [BufDecoder.Len, BufDecoder.HotSlice, copy_length]
  · simp [BufDecoder.Len, BufDecoder.HotSlice, hg, copy_length]
  · have hle : n ≤ me.localBuf.length := by omega
    simp [BufDecoder.Len, BufDecoder.HotSlice, hg, hle]

/-- C11: for every decoder that has not been freed and every `n`, after `NewBufDecoder(n)` or
`Resize(n)` the decoder's `Len()` equals `n` and `HotSlice()` returns a slice of exactly `n`
elements, and when the decoder uses a private buffer that buffer has at least `Len()`
elements. The calls return for every `n` that `make` can allocate. The capacity test of the
shared buffer is taken to answer true only when that buffer has room for `n` elements. -/
theorem len_and_hotSlice_after_resize (maxLen : Nat) (canFit : CanFit) (me : BufDecoder)
    (g : GlobalBuf) (n : Nat) (hn : n < 2 ^ 64) (hfit : CanFitSound canFit) :
    (∀ d g', me.Resize maxLen canFit g n = some (d, g') →
      d.Len = n ∧ (∃ s, d.HotSlice g' = some s ∧ s.length = n) ∧
      (d.gotGlobal = false → d.Len ≤ d.localBuf.length)) ∧
    (∀ d g', NewBufDecoder maxLen canFit g n = some (d, g') →
      d.Len = n ∧ (∃ s, d.HotSlice g' = some s ∧ s.length = n) ∧
      (d.gotGlobal = false → d.Len ≤ d.localBuf.length)) ∧
    (n < 2 ^ 63 → n ≤ maxLen →
      (∃ r, me.Resize maxLen canFit g n = some r) ∧
      (∃ r, NewBufDecoder maxLen canFit g n = some r)) :=
  ⟨fun d g' h => Resize_after maxLen canFit me g n hn hfit d g' h,
   fun d g' h => Resize_after maxLen canFit _ _ n hn hfit d g' h,
   fun h1 h2 => ⟨Resize_returns maxLen canFit me g n h1 h2,
     Resize_returns maxLen canFit _ _ n h1 h2⟩⟩

theorem len_and_hotSlice_after_resize_witness :
    (3 : Nat) < 2 ^ 64 ∧ CanFitSound roomFor ∧
    NewBufDecoder 1000 roomFor (freeBuf [104, 105]) 3
      = some ({ gotGlobal := false, faceSize := 3, localBuf := [104, 105, 0] },
              { buf := [104, 105], held := false, releaseCalls := 1 }) ∧
    (∃ s, BufDecoder.HotSlice { gotGlobal := false, faceSize := 3, localBuf := [104, 105, 0] }
        { buf := [104, 105], held := false, releaseCalls := 1 } = some s ∧ s.length = 3) :=
  ⟨by decide, roomFor_sound, by decide,
   ((len_and_hotSlice_after_resize 1000 roomFor
      { gotGlobal := false, faceSize := 0, localBuf := [] } (freeBuf [104, 105]) 3
      (by decide) roomFor_sound).2.1
      { gotGlobal := false, faceSize := 3, localBuf := [104, 105, 0] }
      { buf := [104, 105], held := false, releaseCalls := 1 } (by decide)).2.1⟩

theorem HotSlice_eq_storage (me : BufDecoder) (g : GlobalBuf) :
    me.HotSlice g = if me.faceSize ≤ (me.storage g).length
      then some ((me.storage g).take me.faceSize) else none := by
  unfold BufDecoder.HotSlice BufDecoder.storage
  cases me.gotGlobal <;> simp

theorem Resize_storage (maxLen : Nat) (canFit : CanFit) (me : BufDecoder) (g : GlobalBuf)
    (n : Nat) (hn : n < 2 ^ 64) (hs : CanFitSound canFit) (hc : CanFitComplete canFit)
    (d : BufDecoder) (g' : GlobalBuf) (h : me.Resize maxLen canFit g n = some (d, g')) :
    (∃ t, d.storage g' = me.storage g ++ t) ∧ n ≤ (d.storage g').length ∧ d.faceSize = n := by
  rcases Resize_cases maxLen canFit me g n d g' h with
    ⟨hg, hf, rfl, rfl⟩ | ⟨hg, hf, hlt, rfl, rfl⟩ | ⟨hg, hlen, rfl, rfl⟩ | ⟨hg, hlen, rfl, rfl⟩
  · have hle := hs g' n hn hf
    exact ⟨⟨[], by simp [BufDecoder.storage, hg]⟩, by simpa [BufDecoder.storage, hg] using hle,
      rfl⟩
  · have hgt : g.buf.length < n := by
      by_contra hcon
      have := hc g n hlt (by omega)
      rw [hf] at this
      exact Bool.noConfusion this
    refine ⟨⟨List.replicate (n - g.buf.length) 0, ?_⟩, ?_, rfl⟩
    · simp [BufDecoder.storage, hg, GlobalBuf.release,
        copy_replicate_of_le g.buf n (by omega)]
    · simp [BufDecoder.storage, copy_length]
  · refine ⟨⟨List.replicate (n - me.localBuf.length) 0, ?_⟩, ?_, rfl⟩
    · simp [BufDecoder.storage, hg, copy_replicate_of_le me.localBuf n (by omega)]
    · simp [BufDecoder.storage, hg, copy_length]
  · exact ⟨⟨[], by simp [BufDecoder.storage, hg]⟩,
      by simp only [BufDecoder.storage, hg]; simp; omega, rfl⟩

/-- C12: `Resize` always grows and keeps existing content: for every decoder and every `n`,
the storage backing the decoder after `Resize(n)` has at least `n` elements and at least as
many elements as before, and for every index `i` below both the old `Len` and `n`, the
element `HotSlice()[i]` after `Resize(n)` equals the element at `i` before, also when the
decoder moves from the shared buffer to a private one. The call returns for every `n` that
`make` can allocate. The capacity test of the shared buffer is taken to answer true exactly
when that buffer has room for `n` elements. -/
theorem resize_grows_and_keeps_content (maxLen : Nat) (canFit : CanFit) (me : BufDecoder)
    (g : GlobalBuf) (n : Nat) (hn : n < 2 ^ 64) (hs : CanFitSound canFit)
    (hc : CanFitComplete canFit) :
    (∀ d g', me.Resize maxLen canFit g n = some (d, g') →
      n ≤ (d.storage g').length ∧
      (me.storage g).length ≤ (d.storage g').length ∧
      ∀ s, me.HotSlice g = some s →
        ∃ s', d.HotSlice g' = some s' ∧
          ∀ i, i < me.Len → i < n → s'.get? i = s.get? i ∧ (s.get? i).isSome) ∧
    (n < 2 ^ 63 → n ≤ maxLen → ∃ r, me.Resize maxLen canFit g n = some r) := by
  refine ⟨?_, fun h1 h2 => Resize_returns maxLen canFit me g n h1 h2⟩
  intro d g' hres
  obtain ⟨⟨t, ht⟩, hge, hface⟩ := Resize_storage maxLen canFit me g n hn hs hc d g' hres
  refine ⟨hge, by rw [ht]; simp, ?_⟩
  intro s hsl
  rw [HotSlice_eq_storage] at hsl
  by_cases hfs : me.faceSize ≤ (me.storage g).length
  · rw [if_pos hfs] at hsl
    simp only [Option.some.injEq] at hsl
    subst hsl
    refine ⟨_, by rw [HotSlice_eq_storage, hface, if_pos hge], ?_⟩
    intro i hi hin
    have hi' : i < me.faceSize := hi
    have hil : i < (me.storage g).length := by omega
    rw [ht]
    simp only [List.get?_eq_getElem?]
    rw [List.getElem?_take_of_lt hin, List.getElem?_take_of_lt hi',
      List.getElem?_append_left hil]
    simp [hil]
  · rw [if_neg hfs] at hsl
    exact Option.noConfusion hsl

theorem resize_grows_and_keeps_content_witness :
    (6 : Nat) < 2 ^ 64 ∧ CanFitSound roomFor ∧ CanFitComplete roomFor ∧
    BufDecoder.Resize 1000 roomFor { gotGlobal := true, faceSize := 3, localBuf := [] }
        { buf := [104, 105, 33, 0], held := true, releaseCalls := 0 } 6
      = some ({ gotGlobal := false, faceSize := 6, localBuf := [104, 105, 33, 0, 0, 0] },
              { buf := [104, 105, 33, 0], held := false, releaseCalls := 1 }) ∧
    (4 : Nat) ≤ (BufDecoder.storage
        { gotGlobal := false, faceSize := 6, localBuf := [104, 105, 33, 0, 0, 0] }
        { buf := [104, 105, 33, 0], held := false, releaseCalls := 1 }).length :=
  ⟨by decide, roomFor_sound, roomFor_complete, by decide,
   ((resize_grows_and_keeps_content 1000 roomFor
      { gotGlobal := true, faceSize := 3, localBuf := [] }
      { buf := [104, 105, 33, 0], held := true, releaseCalls := 0 } 6 (by decide)
      roomFor_sound roomFor_complete).1
      { gotGlobal := false, faceSize := 6, localBuf := [104, 105, 33, 0, 0, 0] }
      { buf := [104, 105, 33, 0], held := false, releaseCalls := 1 } (by decide)).2.1⟩

/-! ## Claims about the global-memory handle -/

/-- C13 (what the code does instead): for every handle, `HGLOBAL.GlobalFlags` makes exactly
one system call, and that call is to the procedure `GlobalFree`, with the handle as sole
argument; the procedure `GlobalFlags` is never called. So it is at the handle 4096 of the
sample system. -/
theorem GlobalFlags_calls_GlobalFree (GMEM_INVALID_HANDLE : Nat)
    (syscall : KernelProc → List Nat → Nat × Nat) (hGlobal : Nat) :
    (HGLOBAL.GlobalFlags GMEM_INVALID_HANDLE syscall hGlobal).calls
        = [(KernelProc.PROC_GlobalFree, [hGlobal])] ∧
    (∀ args, (KernelProc.PROC_GlobalFlags, args)
        ∉ (HGLOBAL.GlobalFlags GMEM_INVALID_HANDLE syscall hGlobal).calls) ∧
    (HGLOBAL.GlobalFlags 0x8000 sampleSyscall 4096).calls
        = [(KernelProc.PROC_GlobalFree, [4096])] := by
  have h1 : (HGLOBAL.GlobalFlags GMEM_INVALID_HANDLE syscall hGlobal).calls
      = [(KernelProc.PROC_GlobalFree, [hGlobal])] := by
    unfold HGLOBAL.GlobalFlags
    simp only []
    split_ifs <;> rfl
  refine ⟨h1, ?_, by decide⟩
  intro args
  rw [h1]
  simp

/-- C14: `GlobalFree` is safe to call on a zero handle: for `hGlobal == 0` it returns nil and
performs no system call; for every non-zero handle it performs exactly one `GlobalFree` call
and returns nil exactly when that call returns 0, otherwise the call's error. -/
theorem GlobalFree_zero_safe (syscall : KernelProc → List Nat → Nat × Nat) (hGlobal : Nat) :
    (hGlobal = 0 →
      (HGLOBAL.GlobalFree syscall hGlobal).err = none ∧
      (HGLOBAL.GlobalFree syscall hGlobal).calls = []) ∧
    (hGlobal ≠ 0 →
      (HGLOBAL.GlobalFree syscall hGlobal).calls = [(KernelProc.PROC_GlobalFree, [hGlobal])] ∧
      ((HGLOBAL.GlobalFree syscall hGlobal).err = none ↔
        (syscall KernelProc.PROC_GlobalFree [hGlobal]).1 = 0) ∧
      ((syscall KernelProc.PROC_GlobalFree [hGlobal]).1 ≠ 0 →
        (HGLOBAL.GlobalFree syscall hGlobal).err
          = some (toERROR (syscall KernelProc.PROC_GlobalFree [hGlobal]).2))) := by
  unfold HGLOBAL.GlobalFree
  refine ⟨fun h => by simp [h], fun h => ?_⟩
  simp only [h, if_false]
  by_cases hr : (syscall KernelProc.PROC_GlobalFree [hGlobal]).1 = 0
  · simp [hr]
  · simp [hr]

theorem GlobalFree_zero_safe_witness :
    (HGLOBAL.GlobalFree sampleSyscall 0).calls = [] ∧
    (HGLOBAL.GlobalFree sampleSyscall 4096).err = none ∧
    (HGLOBAL.GlobalFree sampleSyscall 8192).err = some 6 :=
  ⟨((GlobalFree_zero_safe sampleSyscall 0).1 rfl).2,
   ((GlobalFree_zero_safe sampleSyscall 4096).2 (by decide)).2.1.mpr (by decide),
   by decide⟩

/-! ## Claims about the bit operations -/

theorem make_generic (k lo hi : Nat) (hlo : lo < 2 ^ k) (hhi : hi < 2 ^ k) :
    (lo &&& (2 ^ k - 1)) ||| (((hi &&& (2 ^ k - 1)) <<< k) % 2 ^ (k + k)) = lo + 2 ^ k * hi := by
  rw [Nat.and_pow_two_sub_one_eq_mod, Nat.and_pow_two_sub_one_eq_mod, Nat.mod_eq_of_lt hlo,
    Nat.mod_eq_of_lt hhi, Nat.shiftLeft_eq]
  have hlt : hi * 2 ^ k < 2 ^ (k + k) := by
    rw [Nat.pow_add]
    exact Nat.mul_lt_mul_of_pos_right hhi (Nat.two_pow_pos k)
  rw [Nat.mod_eq_of_lt hlt, Nat.lor_comm, Nat.mul_comm, ← Nat.mul_add_lt_is_or hlo, Nat.add_comm]

theorem break_generic (k v : Nat) (hv : v < 2 ^ (k + k)) :
    (v &&& (2 ^ k - 1)) % 2 ^ k = v % 2 ^ k ∧
    ((v >>> k) &&& (2 ^ k - 1)) % 2 ^ k = v / 2 ^ k := by
  rw [Nat.and_pow_two_sub_one_eq_mod, Nat.and_pow_two_sub_one_eq_mod, Nat.shiftRight_eq_div_pow,
    Nat.mod_mod, Nat.mod_mod]
  refine ⟨rfl, Nat.mod_eq_of_lt ?_⟩
  rw [Nat.div_lt_iff_lt_mul (Nat.two_pow_pos k), ← Nat.pow_add]
  exact hv

theorem make_break_generic (k lo hi : Nat) (hlo : lo < 2 ^ k) (hhi : hi < 2 ^ k) :
    (lo + 2 ^ k * hi) % 2 ^ k = lo ∧ (lo + 2 ^ k * hi) / 2 ^ k = hi ∧
    lo + 2 ^ k * hi < 2 ^ (k + k) := by
  refine ⟨?_, ?_, ?_⟩
  · rw [Nat.add_mul_mod_self_left, Nat.mod_eq_of_lt hlo]
  · rw [Nat.add_mul_div_left _ _ (Nat.two_pow_pos k), Nat.div_eq_of_lt hlo, Nat.zero_add]
  · rw [Nat.pow_add]
    calc lo + 2 ^ k * hi < 2 ^ k + 2 ^ k * hi := by omega
      _ = 2 ^ k * (hi + 1) := by rw [Nat.mul_add, Nat.mul_one, Nat.add_comm]
      _ ≤ 2 ^ k * 2 ^ k := Nat.mul_le_mul_left _ hhi

theorem Make16_eq (lo hi : Nat) (hlo : lo < 2 ^ 8) (hhi : hi < 2 ^ 8) :
    Make16 lo hi = lo + 2 ^ 8 * hi := make_generic 8 lo hi hlo hhi

theorem Make32_eq (lo hi : Nat) (hlo : lo < 2 ^ 16) (hhi : hi < 2 ^ 16) :
    Make32 lo hi = lo + 2 ^ 16 * hi := make_generic 16 lo hi hlo hhi

theorem Make64_eq (lo hi : Nat) (hlo : lo < 2 ^ 32) (hhi : hi < 2 ^ 32) :
    Make64 lo hi = lo + 2 ^ 32 * hi := make_generic 32 lo hi hlo hhi

theorem Break16_eq (v : Nat) (hv : v < 2 ^ 16) : Break16 v = (v % 2 ^ 8, v / 2 ^ 8) :=
  Prod.ext (break_generic 8 v hv).1 (break_generic 8 v hv).2

theorem Break32_eq (v : Nat) (hv : v < 2 ^ 32) : Break32 v = (v % 2 ^ 16, v / 2 ^ 16) :=
  Prod.ext (break_generic 16 v hv).1 (break_generic 16 v hv).2

theorem Break64_eq (v : Nat) (hv : v < 2 ^ 64) : Break64 v = (v % 2 ^ 32, v / 2 ^ 32) :=
  Prod.ext (break_generic 32 v hv).1 (break_generic 32 v hv).2

/-- C15: `Make16`/`Break16`, `Make32`/`Break32` and `Make64`/`Break64` are mutually inverse
with `lo` as the low-order half: `BreakN(MakeN(lo, hi)) = (lo, hi)` and
`MakeN(lo, hi) = lo + 2^(N/2) * hi` for all halves, and `MakeN(BreakN(v)) = v` for all
`v`. -/
theorem make_break_inverse :
    (∀ lo hi, lo < 2 ^ 8 → hi < 2 ^ 8 →
      Break16 (Make16 lo hi) = (lo, hi) ∧ Make16 lo hi = lo + 2 ^ 8 * hi) ∧
    (∀ v, v < 2 ^ 16 → Make16 (Break16 v).1 (Break16 v).2 = v) ∧
    (∀ lo hi, lo < 2 ^ 16 → hi < 2 ^ 16 →
      Break32 (Make32 lo hi) = (lo, hi) ∧ Make32 lo hi = lo + 2 ^ 16 * hi) ∧
    (∀ v, v < 2 ^ 32 → Make32 (Break32 v).1 (Break32 v).2 = v) ∧
    (∀ lo hi, lo < 2 ^ 32 → hi < 2 ^ 32 →
      Break64 (Make64 lo hi) = (lo, hi) ∧ Make64 lo hi = lo + 2 ^ 32 * hi) ∧
    (∀ v, v < 2 ^ 64 → Make64 (Break64 v).1 (Break64 v).2 = v) := by
  refine ⟨?_, ?_, ?_, ?_, ?_, ?_⟩
  · intro lo hi hlo hhi
    obtain ⟨h1, h2, h3⟩ := make_break_generic 8 lo hi hlo hhi
    rw [Make16_eq lo hi hlo hhi, Break16_eq _ h3, h1, h2]
    exact ⟨rfl, rfl⟩
  · intro v hv
    rw [Break16_eq v hv, Make16_eq _ _ (Nat.mod_lt _ (by decide))
      (by rw [Nat.div_lt_iff_lt_mul (by decide)]; exact hv)]
    exact Nat.mod_add_div v (2 ^ 8)
  · intro lo hi hlo hhi
    obtain ⟨h1, h2, h3⟩ := make_break_generic 16 lo hi hlo hhi
    rw [Make32_eq lo hi hlo hhi, Break32_eq _ h3, h1, h2]
    exact ⟨rfl, rfl⟩
  · intro v hv
    rw [Break32_eq v hv, Make32_eq _ _ (Nat.mod_lt _ (by decide))
      (by rw [Nat.div_lt_iff_lt_mul (by decide)]; exact hv)]
    exact Nat.mod_add_div v (2 ^ 16)
  · intro lo hi hlo hhi
    obtain ⟨h1, h2, h3⟩ := make_break_generic 32 lo hi hlo hhi
    rw [Make64_eq lo hi hlo hhi, Break64_eq _ h3, h1, h2]
    exact ⟨rfl, rfl⟩
  · intro v hv
    rw [Break64_eq v hv, Make64_eq _ _ (Nat.mod_lt _ (by decide))
      (by rw [Nat.div_lt_iff_lt_mul (by decide)]; exact hv)]
    exact Nat.mod_add_div v (2 ^ 32)

theorem make_break_inverse_witness :
    Break16 (Make16 0x34 0x12) = (0x34, 0x12) ∧ Make16 0x34 0x12 = 0x1234 ∧
    Make64 (Break64 0x1122334455667788).1 (Break64 0x1122334455667788).2
      = 0x1122334455667788 :=
  ⟨(make_break_inverse.1 0x34 0x12 (by decide) (by decide)).1,
   (make_break_inverse.1 0x34 0x12 (by decide) (by decide)).2,
   make_break_inverse.2.2.2.2.2 0x1122334455667788 (by decide)⟩

theorem one_shl_mod (p : Nat) (hp : p < 8) : (1 <<< p) % 2 ^ 8 = 2 ^ p := by
  rw [Nat.one_shiftLeft]
  exact Nat.mod_eq_of_lt (Nat.pow_lt_pow_right (by decide) hp)

theorem land_two_pow_pos (n p : Nat) : (n &&& 2 ^ p > 0) ↔ n.testBit p = true := by
  constructor
  · intro h
    obtain ⟨i, hi⟩ := Nat.ne_zero_implies_bit_true (Nat.pos_iff_ne_zero.mp h)
    simp only [Nat.testBit_and, Nat.testBit_two_pow, Bool.and_eq_true, decide_eq_true_eq] at hi
    obtain ⟨h1, rfl⟩ := hi
    exact h1
  · intro h
    apply Nat.pos_iff_ne_zero.mpr
    intro h0
    have : (n &&& 2 ^ p).testBit p = true := by
      simp [Nat.testBit_and, Nat.testBit_two_pow, h]
    rw [h0] at this
    simp at this

theorem BitIsSet_eq_testBit (n p : Nat) (hp : p < 8) : BitIsSet n p = n.testBit p := by
  unfold BitIsSet
  rw [one_shl_mod p hp]
  cases h : n.testBit p
  · rw [decide_eq_false_iff_not, land_two_pow_pos, h]; simp
  · rw [decide_eq_true_eq, land_two_pow_pos, h]

theorem testBit_255 (q : Nat) (hq : q < 8) : Nat.testBit 255 q = true := by
  have : (255 : Nat) = 2 ^ 8 - 1 := by decide
  rw [this, Nat.testBit_two_pow_sub_one]
  simpa using hq

theorem testBit_BitSet (n p q : Nat) (b : Bool) (hp : p < 8) (hq : q < 8) :
    (BitSet n p b).testBit q = if q = p then b else n.testBit q := by
  unfold BitSet
  rw [one_shl_mod p hp]
  cases b
  · simp only [Bool.false_eq_true, if_false, Nat.testBit_and, Nat.testBit_xor,
      Nat.testBit_two_pow, testBit_255 q hq]
    by_cases hqp : q = p
    · subst hqp; simp
    · have : ¬ p = q := fun h => hqp h.symm
      simp [hqp, this]
  · simp only [if_true, Nat.testBit_or, Nat.testBit_two_pow]
    by_cases hqp : q = p
    · subst hqp; simp
    · have : ¬ p = q := fun h => hqp h.symm
      simp [hqp, this]

/-- C16: for every `uint8` number, every bit position `p` in 0..7 and every boolean `b`,
`BitIsSet(BitSet(number, p, b), p) = b`; for every other position `q` in 0..7,
`BitIsSet(BitSet(number, p, b), q) = BitIsSet(number, q)`; the result of `BitSet` is again a
`uint8`; and `BitIsSet(number, p)` is true exactly when `floor(number / 2^p)` is odd. -/
theorem bitSet_sets_only_that_bit (number p : Nat) (b : Bool) (hn : number < 2 ^ 8)
    (hp : p < 8) :
    BitIsSet (BitSet number p b) p = b ∧
    (∀ q, q < 8 → q ≠ p → BitIsSet (BitSet number p b) q = BitIsSet number q) ∧
    BitSet number p b < 2 ^ 8 ∧
    (BitIsSet number p = true ↔ number / 2 ^ p % 2 = 1) := by
  refine ⟨?_, ?_, ?_, ?_⟩
  · rw [BitIsSet_eq_testBit _ p hp, testBit_BitSet number p p b hp hp]
    simp
  · intro q hq hqp
    rw [BitIsSet_eq_testBit _ q hq, BitIsSet_eq_testBit _ q hq,
      testBit_BitSet number p q b hp hq]
    simp [hqp]
  · unfold BitSet
    rw [one_shl_mod p hp]
    cases b
    · simp only [Bool.false_eq_true, if_false]
      exact Nat.lt_of_le_of_lt Nat.and_le_left hn
    · simp only [if_true]
      exact Nat.or_lt_two_pow hn (Nat.pow_lt_pow_right (by decide) hp)
  · rw [BitIsSet_eq_testBit _ p hp, Nat.testBit_to_div_mod]
    simp

theorem bitSet_sets_only_that_bit_witness :
    (0xa5 : Nat) < 2 ^ 8 ∧ (3 : Nat) < 8 ∧
    BitIsSet (BitSet 0xa5 3 true) 3 = true ∧ BitSet 0xa5 3 true = 0xad ∧
    (BitIsSet 0xa5 3 = true ↔ 0xa5 / 2 ^ 3 % 2 = 1) :=
  ⟨by decide, by decide,
   (bitSet_sets_only_that_bit 0xa5 3 true (by decide) (by decide)).1, by decide,
   (bitSet_sets_only_that_bit 0xa5 3 true (by decide) (by decide)).2.2.2⟩

end Windigo
